import Mathlib

/-!
Verification development for the Waterfront-Terrace chat proxy.

The repository consists of Cloudflare Pages functions that proxy a chat
request to an upstream completion API and relay the (possibly streamed)
response.  This file gives a shallow embedding of the relevant JavaScript
code and proves properties of it:

  - JavaScript strings are modeled as `List Char` (`SStr`).  Byte chunks of
    the upstream stream are modeled at character level: `TextDecoder` with
    `stream: true` carries partial UTF-8 sequences across reads, so a
    byte-level chunking induces a character-level chunking of the decoded
    text.
  - `JSON.parse` is modeled by `parseJson` over a `Json` value type.
    Numbers are kept as their raw token (the code never uses numeric values
    arithmetically, only for truthiness and string conversion); `\u` escapes
    that do not denote a valid scalar value are rejected by the model
    (lone-surrogate escapes do not occur in any input considered here).
  - SSE frames emitted downstream (`data: <json>\n\n` packets) are modeled
    by the `Frame` type, recording the JSON payload they carry.
-/

/-- A JavaScript string, modeled as its list of characters. -/
abbrev SStr := List Char

/-- The ASCII/Latin-1 part of JavaScript's whitespace class, used by
`trim`/`trimStart` and by `\s` in regular expressions. -/
def isJsWs (c : Char) : Bool :=
  c = ' ' || c = '\t' || c = '\n' || c = '\r' || c = '\x0b' || c = '\x0c' || c = ' '

/-- JavaScript `String.prototype.trimStart`. -/
def jsTrimStart (s : SStr) : SStr := s.dropWhile isJsWs

/-- JavaScript `String.prototype.trim`. -/
def jsTrim (s : SStr) : SStr := ((s.dropWhile isJsWs).reverse.dropWhile isJsWs).reverse

/-- The opening curly brace character. -/
def lcurl : Char := Char.ofNat 123

/-- The closing curly brace character. -/
def rcurl : Char := Char.ofNat 125

/-- Does `pat` occur as a prefix of `s` (case sensitive)? -/
def hasPrefixCS (pat s : SStr) : Bool := List.isPrefixOf pat s

/-- Does `pat` occur as a contiguous substring of `s`?  Models
`String.prototype.includes`. -/
def containsSub (pat : SStr) : SStr → Bool
  | [] => pat = []
  | c :: rest => hasPrefixCS pat (c :: rest) || containsSub pat rest

/-- A JSON value as produced by `JSON.parse`.  Numbers keep their raw
source token; object fields keep source order (with duplicates possible in
the parse tree only transiently: the parser itself keeps every member, and
field lookup takes the last one, as `JSON.parse` does). -/
inductive Json where
  | null
  | bool (b : Bool)
  | num (raw : SStr)
  | str (s : SStr)
  | arr (elems : List Json)
  | obj (fields : List (SStr × Json))

mutual

def jsonDecEq : (a b : Json) → Decidable (a = b)
  | .null, .null => isTrue rfl
  | .null, .bool _ => isFalse fun h => Json.noConfusion h
  | .null, .num _ => isFalse fun h => Json.noConfusion h
  | .null, .str _ => isFalse fun h => Json.noConfusion h
  | .null, .arr _ => isFalse fun h => Json.noConfusion h
  | .null, .obj _ => isFalse fun h => Json.noConfusion h
  | .bool _, .null => isFalse fun h => Json.noConfusion h
  | .bool a, .bool b =>
    match decEq a b with
    | isTrue h => isTrue (by rw [h])
    | isFalse h => isFalse fun hh => h (by injection hh)
  | .bool _, .num _ => isFalse fun h => Json.noConfusion h
  | .bool _, .str _ => isFalse fun h => Json.noConfusion h
  | .bool _, .arr _ => isFalse fun h => Json.noConfusion h
  | .bool _, .obj _ => isFalse fun h => Json.noConfusion h
  | .num _, .null => isFalse fun h => Json.noConfusion h
  | .num _, .bool _ => isFalse fun h => Json.noConfusion h
  | .num a, .num b =>
    match decEq a b with
    | isTrue h => isTrue (by rw [h])
    | isFalse h => isFalse fun hh => h (by injection hh)
  | .num _, .str _ => isFalse fun h => Json.noConfusion h
  | .num _, .arr _ => isFalse fun h => Json.noConfusion h
  | .num _, .obj _ => isFalse fun h => Json.noConfusion h
  | .str _, .null => isFalse fun h => Json.noConfusion h
  | .str _, .bool _ => isFalse fun h => Json.noConfusion h
  | .str _, .num _ => isFalse fun h => Json.noConfusion h
  | .str a, .str b =>
    match decEq a b with
    | isTrue h => isTrue (by rw [h])
    | isFalse h => isFalse fun hh => h (by injection hh)
  | .str _, .arr _ => isFalse fun h => Json.noConfusion h
  | .str _, .obj _ => isFalse fun h => Json.noConfusion h
  | .arr _, .null => isFalse fun h => Json.noConfusion h
  | .arr _, .bool _ => isFalse fun h => Json.noConfusion h
  | .arr _, .num _ => isFalse fun h => Json.noConfusion h
  | .arr _, .str _ => isFalse fun h => Json.noConfusion h
  | .arr xs, .arr ys =>
    match jsonListDecEq xs ys with
    | isTrue h => isTrue (by rw [h])
    | isFalse h => isFalse fun hh => h (by injection hh)
  | .arr _, .obj _ => isFalse fun h => Json.noConfusion h
  | .obj _, .null => isFalse fun h => Json.noConfusion h
  | .obj _, .bool _ => isFalse fun h => Json.noConfusion h
  | .obj _, .num _ => isFalse fun h => Json.noConfusion h
  | .obj _, .str _ => isFalse fun h => Json.noConfusion h
  | .obj _, .arr _ => isFalse fun h => Json.noConfusion h
  | .obj fs, .obj gs =>
    match jsonFieldsDecEq fs gs with
    | isTrue h => isTrue (by rw [h])
    | isFalse h => isFalse fun hh => h (by injection hh)

def jsonListDecEq : (a b : List Json) → Decidable (a = b)
  | [], [] => isTrue rfl
  | [], _ :: _ => isFalse fun h => List.noConfusion h
  | _ :: _, [] => isFalse fun h => List.noConfusion h
  | x :: xs, y :: ys =>
    match jsonDecEq x y with
    | isFalse h1 => isFalse fun h => h1 (by injection h)
    | isTrue h1 =>
      match jsonListDecEq xs ys with
      | isTrue h2 => isTrue (by rw [h1, h2])
      | isFalse h2 => isFalse fun h => h2 (by injection h)

def jsonFieldsDecEq : (a b : List (SStr × Json)) → Decidable (a = b)
  | [], [] => isTrue rfl
  | [], _ :: _ => isFalse fun h => List.noConfusion h
  | _ :: _, [] => isFalse fun h => List.noConfusion h
  | (k1, v1) :: fs, (k2, v2) :: gs =>
    match decEq k1 k2 with
    | isFalse h1 => isFalse fun h => by
        injection h with h3 h4
        exact h1 (congrArg Prod.fst h3)
    | isTrue h1 =>
      match jsonDecEq v1 v2 with
      | isFalse h2 => isFalse fun h => by
          injection h with h3 h4
          exact h2 (congrArg Prod.snd h3)
      | isTrue h2 =>
        match jsonFieldsDecEq fs gs with
        | isTrue h3 => isTrue (by rw [h1, h2, h3])
        | isFalse h3 => isFalse fun h => h3 (by injection h)

end

instance : DecidableEq Json := jsonDecEq

/-! ### `JSON.parse`, modeled over `SStr` -/

/-- Whitespace accepted between JSON tokens (per the JSON grammar). -/
def jsonWs (c : Char) : Bool := c = ' ' || c = '\t' || c = '\n' || c = '\r'

def skipJsonWs (s : SStr) : SStr := s.dropWhile jsonWs

def isDigitCh (c : Char) : Bool := 48 ≤ c.toNat && c.toNat ≤ 57

def hexVal (c : Char) : Option Nat :=
  let n := c.toNat
  if 48 ≤ n ∧ n ≤ 57 then some (n - 48)
  else if 97 ≤ n ∧ n ≤ 102 then some (n - 87)
  else if 65 ≤ n ∧ n ≤ 70 then some (n - 55)
  else none

def hex4 (a b c d : Char) : Option Nat :=
  match hexVal a, hexVal b, hexVal c, hexVal d with
  | some x, some y, some z, some w => some (x * 4096 + y * 256 + z * 16 + w)
  | _, _, _, _ => none

/-- Single-character escapes of JSON strings. -/
def escChar (e : Char) : Option Char :=
  if e = 'n' then some '\n'
  else if e = 't' then some '\t'
  else if e = 'r' then some '\r'
  else if e = 'b' then some '\x08'
  else if e = 'f' then some '\x0c'
  else if e = '"' ∨ e = '\\' ∨ e = '/' then some e
  else none

/-- Parse the body of a JSON string after the opening quote; returns the
decoded characters and the rest of the input after the closing quote. -/
def parseStrBody : SStr → Option (SStr × SStr)
  | [] => none
  | c :: r =>
    if c = '"' then some ([], r)
    else if c = '\\' then
      match r with
      | [] => none
      | 'u' :: a :: b :: c2 :: d :: r3 =>
        match hex4 a b c2 d with
        | some n =>
          if h : n.isValidChar then
            (parseStrBody r3).map (fun p => (Char.ofNatAux n h :: p.1, p.2))
          else none
        | none => none
      | 'u' :: _ => none
      | e :: r2 =>
        match escChar e with
        | some ch => (parseStrBody r2).map (fun p => (ch :: p.1, p.2))
        | none => none
    else if c.toNat < 32 then none
    else (parseStrBody r).map (fun p => (c :: p.1, p.2))

/-- Parse an optional fraction part, returning its raw characters. -/
def parseFrac : SStr → Option (SStr × SStr)
  | '.' :: r =>
    let f := r.takeWhile isDigitCh
    if f = [] then none else some ('.' :: f, r.dropWhile isDigitCh)
  | s => some ([], s)

/-- Parse an optional exponent part, returning its raw characters. -/
def parseExp : SStr → Option (SStr × SStr)
  | [] => some ([], [])
  | c :: r =>
    if c = 'e' || c = 'E' then
      let (sg, r1) :=
        match r with
        | s1 :: r2 => if s1 = '+' || s1 = '-' then ([s1], r2) else (([] : SStr), r)
        | [] => (([] : SStr), ([] : SStr))
      let ds := r1.takeWhile isDigitCh
      if ds = [] then none else some (c :: (sg ++ ds), r1.dropWhile isDigitCh)
    else some ([], c :: r)

/-- Parse a JSON number, returning the raw token. -/
def parseNum (s : SStr) : Option (SStr × SStr) :=
  let (sign, s1) :=
    match s with
    | '-' :: r => ((['-'] : SStr), r)
    | _ => (([] : SStr), s)
  let ds := s1.takeWhile isDigitCh
  let s2 := s1.dropWhile isDigitCh
  if ds = [] then none
  else if 1 < ds.length ∧ ds.headI = '0' then none
  else do
    let (frac, s3) ← parseFrac s2
    let (ex, s4) ← parseExp s3
    return (sign ++ ds ++ frac ++ ex, s4)

mutual

def parseVal : Nat → SStr → Option (Json × SStr)
  | 0, _ => none
  | fuel + 1, s =>
    match skipJsonWs s with
    | c :: r =>
      if c = 'n' then
        if hasPrefixCS ('u' :: 'l' :: 'l' :: []) r then some (.null, r.drop 3) else none
      else if c = 't' then
        if hasPrefixCS ('r' :: 'u' :: 'e' :: []) r then some (.bool true, r.drop 3) else none
      else if c = 'f' then
        if hasPrefixCS ('a' :: 'l' :: 's' :: 'e' :: []) r then some (.bool false, r.drop 4)
        else none
      else if c = '"' then (parseStrBody r).map (fun p => (.str p.1, p.2))
      else if c = '[' then
        match skipJsonWs r with
        | c2 :: r2 =>
          if c2 = ']' then some (.arr [], r2)
          else (parseItems fuel (c2 :: r2)).map (fun p => (.arr p.1, p.2))
        | [] => none
      else if c = lcurl then
        match skipJsonWs r with
        | c2 :: r2 =>
          if c2 = rcurl then some (.obj [], r2)
          else (parseFields fuel (c2 :: r2)).map (fun p => (.obj p.1, p.2))
        | [] => none
      else if c = '-' || isDigitCh c then
        (parseNum (c :: r)).map (fun p => (.num p.1, p.2))
      else none
    | [] => none

def parseItems : Nat → SStr → Option (List Json × SStr)
  | 0, _ => none
  | fuel + 1, s => do
    let (v, r) ← parseVal fuel s
    match skipJsonWs r with
    | c :: r2 =>
      if c = ',' then (parseItems fuel r2).map (fun p => (v :: p.1, p.2))
      else if c = ']' then some ([v], r2)
      else none
    | [] => none

def parseFields : Nat → SStr → Option (List (SStr × Json) × SStr)
  | 0, _ => none
  | fuel + 1, s =>
    match skipJsonWs s with
    | c :: r =>
      if c = '"' then do
        let (k, r1) ← parseStrBody r
        match skipJsonWs r1 with
        | c2 :: r2 =>
          if c2 = ':' then do
            let (v, r3) ← parseVal fuel r2
            match skipJsonWs r3 with
            | c3 :: r4 =>
              if c3 = ',' then (parseFields fuel r4).map (fun p => ((k, v) :: p.1, p.2))
              else if c3 = rcurl then some ([(k, v)], r4)
              else none
            | [] => none
          else none
        | [] => none
      else none
    | [] => none

end

/-- `JSON.parse`: parse a complete JSON document, requiring only trailing
whitespace after the value. -/
def parseJson (s : SStr) : Option Json :=
  match parseVal (2 * s.length + 4) s with
  | some (v, rest) => if skipJsonWs rest = [] then some v else none
  | none => none

/-! ### JavaScript value semantics used by the handlers -/

/-- JavaScript truthiness of a (JSON-parsed) value.  A number is falsy
exactly when its mantissa has no nonzero digit (the code only ever branches
on truthiness, never on a numeric comparison). -/
def numMantissaZero (raw : SStr) : Bool :=
  (raw.takeWhile (fun c => !(c = 'e' || c = 'E'))).all (fun c => !('1' ≤ c && c ≤ '9'))

def jsTruthy : Json → Bool
  | .null => false
  | .bool b => b
  | .num raw => !numMantissaZero raw
  | .str s => !s.isEmpty
  | .arr _ => true
  | .obj _ => true

/-- Property access `j.name` on a parsed value: objects look fields up with
the last duplicate winning (as `JSON.parse` retains the last member); any
other value yields `undefined`, modeled as `none`. -/
def getField (j : Json) (name : SStr) : Option Json :=
  match j with
  | .obj fields => fields.foldl (fun acc f => if f.1 = name then some f.2 else acc) none
  | _ => none

/-- `typeof j.name === "string"` together with the field's value. -/
def getStrField (j : Json) (name : SStr) : Option SStr :=
  match getField j name with
  | some (.str s) => some s
  | _ => none

/-- `a || b` where `a` is a possibly-missing property (missing = `undefined`,
which is falsy) and `b` a present value. -/
def jsOr (a : Option Json) (b : Json) : Json :=
  match a with
  | some v => if jsTruthy v then v else b
  | none => b

/-- `a || b` where both sides may be `undefined`. -/
def jsOrUndef (a b : Option Json) : Option Json :=
  match a with
  | some v => if jsTruthy v then some v else b
  | none => b

def joinComma : List SStr → SStr
  | [] => []
  | [s] => s
  | s :: rest => s ++ ',' :: joinComma rest

mutual

/-- JavaScript `String(v)` conversion of a parsed value: arrays join their
stringified elements with commas (null elements become empty), plain objects
print as `[object Object]`, numbers print their token. -/
def jsToString : Json → SStr
  | .null => 'n' :: 'u' :: 'l' :: 'l' :: []
  | .bool b => if b then "true".toList else "false".toList
  | .num raw => raw
  | .str s => s
  | .arr xs => joinComma (jsToStringArrElems xs)
  | .obj _ => "[object Object]".toList

def jsToStringArrElems : List Json → List SStr
  | [] => []
  | x :: xs =>
    (match x with
     | .null => ([] : SStr)
     | v => jsToString v) :: jsToStringArrElems xs

end

/-- `Map.prototype.set`: update in place if the key exists (keeping its
insertion position), otherwise append. -/
def mapSet (m : List (Json × Json)) (k v : Json) : List (Json × Json) :=
  if m.any (fun p => p.1 = k) then m.map (fun p => if p.1 = k then (k, v) else p)
  else m ++ [(k, v)]

/-- `Map.prototype.get`. -/
def mapGet (m : List (Json × Json)) (k : Json) : Option Json :=
  match m.find? (fun p => p.1 = k) with
  | some p => some p.2
  | none => none

/-- Insert an element at the end unless already present: the effect of
`Set.prototype.add` / first-seen key insertion. -/
def insAbsent {α : Type} [DecidableEq α] (acc : List α) (x : α) : List α :=
  if x ∈ acc then acc else acc ++ [x]

/-- First-seen-order deduplication: the order in which a JavaScript `Set`
or `Map` built by repeated insertion lists its keys. -/
def firstSeen {α : Type} [DecidableEq α] (l : List α) : List α := l.foldl insAbsent []

/-! ### Newline splitting of the buffered stream -/

/-- `buffer.split("\n")`: split on every newline; always returns at least
one (possibly empty) piece. -/
def splitNl : SStr → List SStr
  | [] => [[]]
  | c :: cs =>
    let r := splitNl cs
    if c = '\n' then [] :: r
    else (c :: r.headI) :: r.tail

/-! ### The streaming relay of `functions/chat.js` -/

/-- One downstream SSE frame (the JSON payload of a `data:` packet, or the
final `[DONE]` sentinel packet). -/
inductive Frame where
  | outputText (s : SStr)
  | doneFrame (final : SStr) (sources : List Json)
  | doneSentinel
deriving DecidableEq

/-- The request-local accumulation state of the relay: the answer text so
far, the frames emitted so far, and the `foundFiles` map of file id to
display name (insertion ordered). -/
structure RelayCore where
  full : SStr
  output : List Frame
  foundFiles : List (Json × Json)
deriving DecidableEq

/-- The id a result entry contributes, if any: `const f = r.file || {};
const id = f.id || r.file_id; if (!id) continue;`. -/
def resultIdOf (r : Json) : Option Json :=
  let f := jsOr (getField r ('f' :: 'i' :: 'l' :: 'e' :: [])) (Json.obj [])
  match jsOrUndef (getField f ('i' :: 'd' :: [])) (getField r "file_id".toList) with
  | some idv => if jsTruthy idv then some idv else none
  | none => none

/-- The display name recorded with an id in chat.js:
`const name = f.filename || r.filename || id;`. -/
def resultName (r : Json) (idv : Json) : Json :=
  let f := jsOr (getField r ('f' :: 'i' :: 'l' :: 'e' :: [])) (Json.obj [])
  jsOr (getField f "filename".toList) (jsOr (getField r "filename".toList) idv)

/-- One iteration of the `for (const r of evt.results)` body of chat.js:
`const f = r.file || {}; const id = f.id || r.file_id; if (!id) continue;
const name = f.filename || r.filename || id; foundFiles.set(id, name);`. -/
def collectResult (found : List (Json × Json)) (r : Json) : List (Json × Json) :=
  match resultIdOf r with
  | some idv => mapSet found idv (resultName r idv)
  | none => found

/-- The whole `for (const r of evt.results)` loop.  The Boolean records
whether the loop threw: property access `r.file` on a `null` entry raises a
`TypeError`, which aborts the rest of the event's processing (the
exception is swallowed by the surrounding `catch`). -/
def collectResults (found : List (Json × Json)) : List Json → List (Json × Json) × Bool
  | [] => (found, false)
  | r :: rs =>
    if r = Json.null then (found, true)
    else collectResults (collectResult found r) rs

/-- `evt?.type && String(evt.type).includes("file_search")`. -/
def typeMentionsFileSearch (evt : Json) : Bool :=
  match getField evt ('t' :: 'y' :: 'p' :: 'e' :: []) with
  | some v => jsTruthy v && containsSub "file_search".toList (jsToString v)
  | none => false

/-- Process one parsed stream event, per chat.js: (A) forward text deltas
or chunks, appending to the running answer; (B) collect file-search results
into `foundFiles`; (C) permissively re-scan `results` when the event type
mentions `file_search`.  When `results` is truthy but not an array, block B
skips it and block C either throws on a non-iterable (swallowed) or
iterates a string's characters to no effect, so the state is unchanged
either way; the model folds those cases into the no-op branch. -/
def processEvt (core : RelayCore) (evt : Json) : RelayCore :=
  let core1 :=
    match getStrField evt ('d' :: 'e' :: 'l' :: 't' :: 'a' :: []) with
    | some d => { core with full := core.full ++ d, output := core.output ++ [Frame.outputText d] }
    | none =>
      match getStrField evt "output_text".toList with
      | some t => { core with full := core.full ++ t, output := core.output ++ [Frame.outputText t] }
      | none => core
  match getField evt "results".toList with
  | some (Json.arr rs) =>
    let pr := collectResults core1.foundFiles rs
    let core2 := { core1 with foundFiles := pr.1 }
    if pr.2 then core2
    else if typeMentionsFileSearch evt then
      { core2 with foundFiles := (collectResults core2.foundFiles rs).1 }
    else core2
  | _ => core1

/-- Process one complete line of the upstream SSE stream, per the loop body
of chat.js: `trimStart`, require the `data:` prefix, strip it and `trim`;
skip empty payloads and the `[DONE]` sentinel; parse the payload as JSON
and process the event, silently ignoring lines that fail to parse. -/
def stepLine (core : RelayCore) (rawLine : SStr) : RelayCore :=
  let line := jsTrimStart rawLine
  if hasPrefixCS "data:".toList line then
    let data := jsTrim (line.drop 5)
    if data = [] ∨ data = "[DONE]".toList then core
    else
      match parseJson data with
      | some evt => processEvt core evt
      | none => core
  else core

/-- The relay's full per-request state: the accumulation state plus the
partial trailing line carried across reads. -/
structure RelayState where
  core : RelayCore
  buffer : SStr
deriving DecidableEq

/-- Consume one decoded chunk: append it to the buffer, split on newlines,
process every complete line, and keep the trailing partial line as the new
buffer — the read-loop body of chat.js. -/
def feed (st : RelayState) (chunk : SStr) : RelayState :=
  let lines := splitNl (st.buffer ++ chunk)
  { core := lines.dropLast.foldl stepLine st.core, buffer := lines.getLastI }

def initRelay : RelayState :=
  { core := { full := [], output := [], foundFiles := [] }, buffer := [] }

/-- Run the relay over a whole sequence of decoded chunks. -/
def relayRun (chunks : List SStr) : RelayState := chunks.foldl feed initRelay

/-- `Array.from(foundFiles.values())`. -/
def relaySources (st : RelayState) : List Json := st.core.foundFiles.map Prod.snd

/-- The frames the relay emits when the upstream stream ends cleanly: the
streamed frames, then the final `done` frame with the full answer and the
deduped sources, then the `[DONE]` sentinel. -/
def relayEmitClean (chunks : List SStr) : List Frame :=
  let st := relayRun chunks
  st.core.output ++ [Frame.doneFrame st.core.full (relaySources st), Frame.doneSentinel]

/-- How the downstream stream terminated: a clean `controller.close()`
after the sentinel, or `controller.error(err)`. -/
inductive StreamEnd where
  | clean
  | errored
deriving DecidableEq

/-- The frames the relay has emitted if the upstream read fails after the
given chunks: exactly the incrementally streamed frames (the final frame
and sentinel are never reached), and the stream is terminated with an
error. -/
def relayEmitAborted (chunks : List SStr) : List Frame × StreamEnd :=
  ((relayRun chunks).core.output, StreamEnd.errored)

/-! ### The minimal pass-through relay of `unnamed/part_001` (a `chat.js`
variant): forwards text chunks only, forwards non-JSON payloads verbatim,
and ends with just the `[DONE]` sentinel (no terminal summary frame). -/

/-- `sendText` of part_001: skip falsy (empty) chunks, else emit an
`output_text` frame. -/
def sendText (out : List Frame) (chunk : SStr) : List Frame :=
  if chunk.isEmpty then out else out ++ [Frame.outputText chunk]

/-- The per-line body of part_001's read loop. -/
def stepLine001 (out : List Frame) (rawLine : SStr) : List Frame :=
  let line := jsTrimStart rawLine
  if hasPrefixCS "data:".toList line then
    let data := jsTrim (line.drop 5)
    if data = [] ∨ data = "[DONE]".toList then out
    else
      match parseJson data with
      | some evt =>
        match getStrField evt ('d' :: 'e' :: 'l' :: 't' :: 'a' :: []) with
        | some d => sendText out d
        | none =>
          match getStrField evt "output_text".toList with
          | some t => sendText out t
          | none => out
      | none => sendText out data
  else out

structure Relay001State where
  output : List Frame
  buffer : SStr
deriving DecidableEq

def feed001 (st : Relay001State) (chunk : SStr) : Relay001State :=
  let lines := splitNl (st.buffer ++ chunk)
  { output := lines.dropLast.foldl stepLine001 st.output, buffer := lines.getLastI }

def relay001Run (chunks : List SStr) : Relay001State :=
  chunks.foldl feed001 { output := [], buffer := [] }

/-- part_001's downstream frames on clean completion: the streamed frames
followed directly by the `[DONE]` sentinel. -/
def relay001EmitClean (chunks : List SStr) : List Frame :=
  (relay001Run chunks).output ++ [Frame.doneSentinel]

/-! ### The id-resolving relay of `unnamed/part_004` (a `chat.js` variant
that collects file ids and resolves display names after the stream). -/

/-- `stripExt`: drop the final extension; a dot at position 0 or no dot
leaves the name unchanged. -/
def stripExt (n : SStr) : SStr :=
  if '.' ∈ n then
    let suffix := n.reverse.takeWhile (fun c => !(c = '.'))
    let i := n.length - suffix.length - 1
    if 0 < i then n.take i else n
  else n

/-- Outcome of the per-id `fetch` against the upstream file-metadata
endpoint: the fetch (or the body's JSON parse) threw, the response was not
ok, or it succeeded with a parsed body. -/
inductive FileLookup where
  | threw
  | notOk
  | ok (body : Json)

/-- Resolve one id, per the loop body of part_004's `resolveDisplayNames`:
on success push `stripExt(j.filename || id)`; on a non-ok response, or in
the `catch`, push `stripExt(nameHints.get(id) || id)`.  `lastIndexOf` on a
non-string value throws a TypeError: in the ok branch the push sits inside
the `try`, so that throw lands in the per-id `catch` and the hint chain is
retried; a throw from the `catch` body itself propagates (the enclosing
stream then errors with no terminal frame), modeled as `none`. -/
def resolve004Name (lookup : Json → FileLookup) (hints : List (Json × Json)) (id : Json) :
    Option SStr :=
  let hintFall : Option SStr :=
    match jsOr (mapGet hints id) id with
    | .str h => some (stripExt h)
    | _ => none
  match lookup id with
  | .ok j =>
    match jsOr (getField j "filename".toList) id with
    | .str s => some (stripExt s)
    | _ => hintFall
  | .notOk => hintFall
  | .threw => hintFall

/-- The `out` list built by `resolveDisplayNames` before deduplication. -/
def resolve004Names (lookup : Json → FileLookup) (hints : List (Json × Json)) :
    List Json → Option (List SStr)
  | [] => some []
  | id :: rest => do
    let n ← resolve004Name lookup hints id
    let ns ← resolve004Names lookup hints rest
    return n :: ns

/-- part_004's `resolveDisplayNames(ids)`: resolve every id and dedup while
preserving order (`[...new Set(out)]`). -/
def resolveDisplayNames (lookup : Json → FileLookup) (hints : List (Json × Json))
    (ids : List Json) : Option (List SStr) :=
  (resolve004Names lookup hints ids).map firstSeen

/-- part_004's accumulation state: answer text, emitted frames, the
`fileIds` set (insertion ordered) and the `nameHints` map. -/
structure Relay004Core where
  full : SStr
  output : List Frame
  fileIds : List Json
  nameHints : List (Json × Json)
deriving DecidableEq

/-- One candidate entry of part_004's collection loop: add the id to the
set and record a truthy hint (`f.filename || r.filename || r.display_name
|| r.name`). -/
def collect004Result (st : List Json × List (Json × Json)) (r : Json) :
    List Json × List (Json × Json) :=
  let f := jsOr (getField r ('f' :: 'i' :: 'l' :: 'e' :: [])) (Json.obj [])
  match jsOrUndef (getField f ('i' :: 'd' :: [])) (getField r "file_id".toList) with
  | some idv =>
    if jsTruthy idv then
      let ids := insAbsent st.1 idv
      let hint := jsOrUndef (getField f "filename".toList)
        (jsOrUndef (getField r "filename".toList)
          (jsOrUndef (getField r "display_name".toList) (getField r ('n' :: 'a' :: 'm' :: 'e' :: []))))
      match hint with
      | some h => if jsTruthy h then (ids, mapSet st.2 idv h) else (ids, st.2)
      | none => (ids, st.2)
    else st
  | none => st

/-- part_004's `for (const r of candidates)` loop, stopping (with the
swallowed `TypeError`) at a `null` entry. -/
def collect004Results (st : List Json × List (Json × Json)) :
    List Json → (List Json × List (Json × Json)) × Bool
  | [] => (st, false)
  | r :: rs =>
    if r = Json.null then (st, true)
    else collect004Results (collect004Result st r) rs

/-- Process one parsed event, per part_004: text handling as in chat.js,
then a single pass over `candidates`, which is `evt.results` once when it
is an array, plus a second copy when the event type mentions
`file_search`. -/
def processEvt004 (core : Relay004Core) (evt : Json) : Relay004Core :=
  let core1 :=
    match getStrField evt ('d' :: 'e' :: 'l' :: 't' :: 'a' :: []) with
    | some d => { core with full := core.full ++ d, output := core.output ++ [Frame.outputText d] }
    | none =>
      match getStrField evt "output_text".toList with
      | some t => { core with full := core.full ++ t, output := core.output ++ [Frame.outputText t] }
      | none => core
  let base :=
    match getField evt "results".toList with
    | some (Json.arr a) => a
    | _ => ([] : List Json)
  let cands := base ++ (if typeMentionsFileSearch evt then base else [])
  let pr := collect004Results (core1.fileIds, core1.nameHints) cands
  { core1 with fileIds := pr.1.1, nameHints := pr.1.2 }

def stepLine004 (core : Relay004Core) (rawLine : SStr) : Relay004Core :=
  let line := jsTrimStart rawLine
  if hasPrefixCS "data:".toList line then
    let data := jsTrim (line.drop 5)
    if data = [] ∨ data = "[DONE]".toList then core
    else
      match parseJson data with
      | some evt => processEvt004 core evt
      | none => core
  else core

structure Relay004State where
  core : Relay004Core
  buffer : SStr
deriving DecidableEq

def feed004 (st : Relay004State) (chunk : SStr) : Relay004State :=
  let lines := splitNl (st.buffer ++ chunk)
  { core := lines.dropLast.foldl stepLine004 st.core, buffer := lines.getLastI }

def relay004Run (chunks : List SStr) : Relay004State :=
  chunks.foldl feed004 { core := { full := [], output := [], fileIds := [], nameHints := [] },
                         buffer := [] }

/-- part_004's downstream frames on clean upstream completion: resolve the
collected ids, then emit the terminal frame and sentinel; if resolution
throws (non-string name), the stream errors with no terminal frame. -/
def relay004EmitClean (lookup : Json → FileLookup) (chunks : List SStr) :
    List Frame × StreamEnd :=
  let st := relay004Run chunks
  match resolveDisplayNames lookup st.core.nameHints st.core.fileIds with
  | some srcs =>
    (st.core.output ++ [Frame.doneFrame st.core.full (srcs.map Json.str), Frame.doneSentinel],
     StreamEnd.clean)
  | none => (st.core.output, StreamEnd.errored)

/-! ### The HTTP handlers (request validation and upstream dispatch) -/

/-- The environment variables the handlers read; a missing variable is the
empty string (both are falsy). -/
structure Env where
  OPENAI_API_KEY : SStr
  OPENAI_VECTOR_STORE_ID : SStr
  MODEL_ID : SStr
  SYSTEM_PROMPT : SStr
deriving DecidableEq

/-- Outcome of `await request.json()`. -/
inductive BodyParse where
  | failed
  | ok (body : Json)
deriving DecidableEq

/-- The upstream `fetch` response as the handlers observe it. -/
structure Upstream where
  ok : Bool
  hasBody : Bool
  status : Nat
  bodyText : SStr
deriving DecidableEq

structure HttpResponse where
  status : Nat
  body : SStr
deriving DecidableEq

/-- The request payload the handlers send upstream. -/
structure UpstreamPayload where
  model : SStr
  instructions : SStr
  input : SStr
  stream : Bool
deriving DecidableEq

def MODEL_FALLBACK : SStr := "gpt-4.1-mini".toList

def ALLOWED_ORIGINS : List SStr := ["*".toList]

def defaultSystemPrompt : SStr :=
  "Answer only using the provided documents. If not present, say: \"I don\x27t know based on the provided documents.\"".toList

def natToStr (n : Nat) : SStr := (Nat.repr n).toList

/-- `(body?.message || "").toString().slice(0, 4000).trim()`. -/
def computeUserMessage (body : Json) : SStr :=
  jsTrim ((jsToString (jsOr (getField body "message".toList) (Json.str []))).take 4000)

/-- What the chat.js handler does with a request, as a function of the
body-parse outcome, the environment, and the upstream response.  CORS
headers are not modeled (no claim concerns them); `earlyResponse` means
the handler returned before issuing the upstream `fetch`. -/
inductive ChatOutcome where
  | earlyResponse (r : HttpResponse)
  | upstreamError (r : HttpResponse)
  | streamRelay (payload : UpstreamPayload)
deriving DecidableEq

/-- `onRequestPost` of `functions/chat.js`, up to the point where the
response stream is constructed. -/
def onRequestPostChat (origin : Option SStr) (b : BodyParse) (env : Env) (u : Upstream) :
    ChatOutcome :=
  let originAllowed : Bool :=
    match origin with
    | some o => ALLOWED_ORIGINS.contains o
    | none => false
  if ALLOWED_ORIGINS.headI ≠ "*".toList ∧ originAllowed = false then
    .earlyResponse ⟨403, "Forbidden".toList⟩
  else
    match b with
    | .failed => .earlyResponse ⟨400, "Bad JSON".toList⟩
    | .ok body =>
      let userMessage := computeUserMessage body
      if userMessage = [] then .earlyResponse ⟨400, "Missing \x27message\x27".toList⟩
      else if env.OPENAI_API_KEY = [] ∨ env.OPENAI_VECTOR_STORE_ID = [] then
        .earlyResponse ⟨500, "Server not configured (OPENAI_API_KEY / OPENAI_VECTOR_STORE_ID)".toList⟩
      else
        let model := if env.MODEL_ID = [] then MODEL_FALLBACK else env.MODEL_ID
        let sys := if env.SYSTEM_PROMPT = [] then defaultSystemPrompt else env.SYSTEM_PROMPT
        if ¬ u.ok ∨ ¬ u.hasBody then
          .upstreamError ⟨502, "Upstream error: ".toList ++ natToStr u.status ++ ' ' :: u.bodyText⟩
        else
          .streamRelay ⟨model, sys, userMessage, true⟩

/-! ### The non-streaming handler of `functions/chat2.js` -/

/-- `(data?.output || []).find(o => o.type === "message")`, recording a
thrown `TypeError` (property access on a `null` element) as `none`. -/
def findMessage : List Json → Option (Option Json)
  | [] => some none
  | o :: os =>
    if o = Json.null then none
    else if getField o ('t' :: 'y' :: 'p' :: 'e' :: []) = some (Json.str "message".toList) then
      some (some o)
    else findMessage os

/-- `msg.content.map(c => c.text || "")` with the `join("")` coercion of
each piece to a string; `none` when a `null` element makes the access
throw. -/
def contentPieces : List Json → Option (List SStr)
  | [] => some []
  | c :: cs =>
    if c = Json.null then none
    else
      let piece :=
        match getField c ('t' :: 'e' :: 'x' :: 't' :: []) with
        | some t => if jsTruthy t then jsToString t else ([] : SStr)
        | none => ([] : SStr)
      (contentPieces cs).map (piece :: ·)

/-- The fallback branch of `extractAnswer`: concatenate the text segments
of the first `message` object in `data.output`; any thrown access inside
the `try` yields the empty string. -/
def extractAnswerFallback (data : Json) : SStr :=
  match getField data "output".toList with
  | some (Json.arr xs) =>
    match findMessage xs with
    | some (some msg) =>
      match getField msg "content".toList with
      | some (Json.arr cs) =>
        if cs ≠ [] then
          match contentPieces cs with
          | some ps => ps.foldr (· ++ ·) []
          | none => []
        else []
      | _ => []
    | _ => []
  | _ => []

/-- `extractAnswer` of chat2.js/chat3.js: prefer a top-level `output_text`
string whose trim is nonempty, else the structured fallback. -/
def extractAnswer (data : Json) : SStr :=
  match getStrField data "output_text".toList with
  | some s => if jsTrim s ≠ [] then s else extractAnswerFallback data
  | none => extractAnswerFallback data

/-! ### The text-driven source extractor
`/(?:^|\n)\s*Sources:\s*(.+)\s*$/i` applied by `exec`, then split on
`[;,]`, trim, and drop empties.  The regex is modeled by a backtracking
matcher specialized to this pattern: the anchor alternation `(?:^|\n)`
tries the string start and then every newline left to right; the `\s*`
before `Sources:` can only usefully consume its maximal whitespace run
(the next pattern character `S` is not whitespace, so shorter runs cannot
match); `\s*(.+)\s*$` backtracks the first `\s*` from longest to shortest
and then takes the greedy dot-run, which succeeds exactly when the rest of
the input is whitespace. -/

/-- A character matched by `.` (not a line terminator). -/
def isDotCh (c : Char) : Bool := !(c = '\n' || c = '\r' || c = ' ' || c = ' ')

/-- The literal `Sources:` in lowercase. -/
def srcPat : SStr := "sources:".toList

/-- Case-insensitive match of the (lowercase) literal `p` at the head of
`s`. -/
def matchesCI : SStr → SStr → Bool
  | p :: ps, c :: cs => (c.toLower = p) && matchesCI ps cs
  | [], _ => true
  | _, [] => false

/-- `(.+)\s*$` with a greedy dot-run: succeeds with the maximal run of
non-terminator characters iff that run is nonempty and only whitespace
follows it. -/
def dotPlusWsEnd (t : SStr) : Option SStr :=
  let m := t.takeWhile isDotCh
  if m = [] then none
  else if (t.drop m.length).all isJsWs then some m else none

/-- Backtrack the leading `\s*` of `\s*(.+)\s*$` from consuming `k`
characters down to zero. -/
def tryFromK (t : SStr) : Nat → Option SStr
  | 0 => dotPlusWsEnd t
  | k + 1 =>
    match dotPlusWsEnd (t.drop (k + 1)) with
    | some g => some g
    | none => tryFromK t k

/-- `\s*(.+)\s*$` matched against `t`, greedily. -/
def afterColon (t : SStr) : Option SStr := tryFromK t (t.takeWhile isJsWs).length

/-- The regex body after an anchor: `\s*Sources:\s*(.+)\s*$`. -/
def matchBody (t : SStr) : Option SStr :=
  let t1 := t.dropWhile isJsWs
  if matchesCI srcPat t1 then afterColon (t1.drop 8) else none

/-- Scan the remaining anchors: each newline character, left to right. -/
def scanAux : SStr → Option SStr
  | [] => none
  | c :: cs =>
    if c = '\n' then
      match matchBody cs with
      | some g => some g
      | none => scanAux cs
    else scanAux cs

/-- `re.exec(answer)`: the start-of-string anchor first, then the newline
anchors; returns the capture group. -/
def execSourcesRe (t : SStr) : Option SStr :=
  match matchBody t with
  | some g => some g
  | none => scanAux t

/-- `capture.split(/[;,]/)`. -/
def splitSep : SStr → List SStr
  | [] => [[]]
  | c :: cs =>
    let r := splitSep cs
    if c = ';' ∨ c = ',' then [] :: r
    else (c :: r.headI) :: r.tail

/-- `extractSourcesFromAnswer` of chat2.js/chat3.js/part_000. -/
def extractSourcesFromAnswer (answer : SStr) : List SStr :=
  match execSourcesRe answer with
  | none => []
  | some g => ((splitSep g).map jsTrim).filter (fun s => !s.isEmpty)

/-- Outcome of chat2.js's `onRequest`. -/
inductive Chat2Outcome where
  | earlyResponse (r : HttpResponse)
  | upstreamError (r : HttpResponse)
  | success (answer : SStr) (sources : List SStr)
  | crash
deriving DecidableEq

/-- `onRequest` of `functions/chat2.js`: preflight and method checks, body
validation, environment checks, then the upstream call; a non-ok upstream
response is passed through with its own status and body, and a successful
one is normalized to `{ answer, sources }` (`crash` marks an unparseable
success body, whose `await upstream.json()` would throw). -/
def onRequestChat2 (method : SStr) (b : BodyParse) (env : Env) (u : Upstream)
    (uJson : Option Json) : Chat2Outcome :=
  if method = "OPTIONS".toList then .earlyResponse ⟨200, []⟩
  else if method ≠ "POST".toList then .earlyResponse ⟨405, "Method Not Allowed".toList⟩
  else
    match b with
    | .failed => .earlyResponse ⟨400, "Bad JSON".toList⟩
    | .ok body =>
      let userMessage := computeUserMessage body
      if userMessage = [] then .earlyResponse ⟨400, "Missing \x27message\x27".toList⟩
      else if env.OPENAI_API_KEY = [] ∨ env.OPENAI_VECTOR_STORE_ID = [] then
        .earlyResponse ⟨500, "Missing OPENAI_API_KEY or OPENAI_VECTOR_STORE_ID".toList⟩
      else if ¬ u.ok then
        .upstreamError ⟨u.status, u.bodyText⟩
      else
        match uJson with
        | some d =>
          let answer := extractAnswer d
          .success answer (extractSourcesFromAnswer answer)
        | none => .crash

/-! ### Derived observation functions used to state the claims -/

/-- Attach the first piece of `bs` to the end of `l`: how the lines of a
concatenation relate to the lines of its parts. -/
def glueHead (l : SStr) : List SStr → List SStr
  | [] => [l]
  | h :: t => (l ++ h) :: t

/-- The ids observed by one pass of the chat.js results loop, in order,
duplicates kept; the Boolean marks the aborting `TypeError` at a `null`
entry. -/
def collectIds : List Json → List Json × Bool
  | [] => ([], false)
  | r :: rs =>
    if r = Json.null then ([], true)
    else
      match resultIdOf r with
      | some idv =>
        let pr := collectIds rs
        (idv :: pr.1, pr.2)
      | none => collectIds rs

/-- The ids one parsed event contributes, in observation order (block B,
then block C's permissive re-scan). -/
def evtIds (evt : Json) : List Json :=
  match getField evt "results".toList with
  | some (Json.arr rs) =>
    let pr := collectIds rs
    pr.1 ++ (if ¬ pr.2 ∧ typeMentionsFileSearch evt then (collectIds rs).1 else [])
  | _ => []

/-- The ids one complete stream line contributes. -/
def lineIds (rawLine : SStr) : List Json :=
  let line := jsTrimStart rawLine
  if hasPrefixCS "data:".toList line then
    let data := jsTrim (line.drop 5)
    if data = [] ∨ data = "[DONE]".toList then []
    else
      match parseJson data with
      | some evt => evtIds evt
      | none => []
  else []

/-- All file identifiers observed across a run, in observation order with
duplicates: the ids of every complete line of the chunked stream. -/
def observedIds (chunks : List SStr) : List Json :=
  ((splitNl chunks.flatten).dropLast.map lineIds).flatten

def isDoneFrame : Frame → Bool
  | Frame.doneFrame _ _ => true
  | _ => false

/-- The text payload of a streamed text frame. -/
def frameText : Frame → Option SStr
  | Frame.outputText s => some s
  | _ => none

/-- The concatenation of all streamed text increments in a frame list. -/
def framesText (fs : List Frame) : SStr := (fs.filterMap frameText).flatten

/-- Does a line consist of optional whitespace followed by `Sources:`
(case-insensitively) — i.e. is it a "Sources:" line? -/
def sourcesLine (l : SStr) : Bool := matchesCI srcPat (l.dropWhile isJsWs)

/-- Case-insensitive containment of the (lowercase) literal `pat`. -/
def containsCI (pat : SStr) : SStr → Bool
  | [] => matchesCI pat []
  | c :: rest => matchesCI pat (c :: rest) || containsCI pat rest

/-! ### The title-enriching variant of `unnamed/part_002` (`prettyTitle`,
lines 59-91, and the per-id resolution loop, lines 201-225). -/

/-- A regex word character `\w`, i.e. `[A-Za-z0-9_]`, for the `\b`
boundaries of part_002's normalization regex. -/
def isWordCh (c : Char) : Bool :=
  (48 ≤ c.toNat && c.toNat ≤ 57) || (65 ≤ c.toNat && c.toNat ≤ 90) ||
    (97 ≤ c.toNat && c.toNat ≤ 122) || c = '_'

/-- The alternation `(final|official|accepted|amendment|rev|ver|v\d+)` of
`replace(/\b(...)\b/ig, "")`, matched case-insensitively at the head of
`s` with the trailing `\b` checked; the caller checks the leading `\b`.
Alternatives are tried in the regex's order.  For `v\d+` only the maximal
digit run can satisfy the trailing boundary, because every shorter run is
followed by a digit and digits are word characters. -/
def keywordAt (s : SStr) : Option Nat :=
  let bAfter : Nat → Bool := fun n =>
    match s.drop n with
    | [] => true
    | c :: _ => !isWordCh c
  let tryLit : SStr → Option Nat := fun kw =>
    if matchesCI kw s && bAfter kw.length then some kw.length else none
  let tryNum : Option Nat :=
    match s with
    | c :: rest =>
      if c = 'v' || c = 'V' then
        let ds := rest.takeWhile isDigitCh
        if !ds.isEmpty && bAfter (ds.length + 1) then some (ds.length + 1) else none
      else none
    | [] => none
  (tryLit "final".toList).orElse fun _ =>
  (tryLit "official".toList).orElse fun _ =>
  (tryLit "accepted".toList).orElse fun _ =>
  (tryLit "amendment".toList).orElse fun _ =>
  (tryLit "rev".toList).orElse fun _ =>
  (tryLit "ver".toList).orElse fun _ => tryNum

/-- One global pass of `replace(/\b(final|...|v\d+)\b/ig, "")`: scan the
original string left to right, tracking whether the previous character is
a word character (the leading `\b`); a match is removed and scanning
resumes after it, where the character before the next position is the
keyword's final letter, a word character.  The fuel is the string length:
every step consumes at least one character, so it never runs out. -/
def removeKeywordsAux : Nat → Bool → SStr → SStr
  | 0, _, _ => []
  | _ + 1, _, [] => []
  | fuel + 1, prevW, c :: rest =>
    if prevW then c :: removeKeywordsAux fuel (isWordCh c) rest
    else
      match keywordAt (c :: rest) with
      | some n => removeKeywordsAux fuel true ((c :: rest).drop n)
      | none => c :: removeKeywordsAux fuel (isWordCh c) rest

def removeKeywords (s : SStr) : SStr := removeKeywordsAux s.length false s

/-- `replace(/\s{2,}/g, " ")`: a run of two or more whitespace characters
becomes a single space; a lone whitespace character is kept as it is. -/
def collapseWsAux : Nat → SStr → SStr
  | 0, _ => []
  | _ + 1, [] => []
  | fuel + 1, c :: rest =>
    if isJsWs c then
      let run := rest.takeWhile isJsWs
      if run.isEmpty then c :: collapseWsAux fuel rest
      else ' ' :: collapseWsAux fuel (rest.drop run.length)
    else c :: collapseWsAux fuel rest

def collapseWs (s : SStr) : SStr := collapseWsAux s.length s

def hcccStr : SStr := "Halifax County Condominium Corporation No. 227".toList

/-- part_002's `prettyTitle` (lines 66-91): keyword checks against the
lowercased raw name pick a canned document title; otherwise the name is
normalized (underscores to spaces, version tokens removed, whitespace runs
collapsed, trimmed) and extension-stripped. -/
def prettyTitle (rawName : SStr) : SStr :=
  let name := rawName.map Char.toLower
  let normalized :=
    jsTrim (collapseWs (removeKeywords (rawName.map fun c => if c = '_' then ' ' else c)))
  if containsSub "by-law".toList name || containsSub "bylaws".toList name
      || containsSub "by-laws".toList name then
    "By-laws of ".toList ++ hcccStr
  else if containsSub "declaration".toList name then
    "Declaration of ".toList ++ hcccStr
  else if containsSub "condominium act".toList name then
    "The Nova Scotia Condominium Act".toList
  else if containsSub "regulation".toList name then
    "The Nova Scotia Condominium Regulations".toList
  else stripExt normalized

/-- part_002's per-id enrichment (lines 205-222): prefer a truthy entry of
the preloaded store map; otherwise resolve via the per-id lookup with
`j.filename || nameHints.get(id) || id` on success and
`nameHints.get(id) || id` on a non-ok response or in the `catch`; the
chosen name is pushed as `prettyTitle(stripExt(name))`.  That push sits
outside the inner try, so `stripExt` on a non-string name throws out of
the loop (stream error, no terminal frame), modeled as `none`. -/
def resolve002Name (fileMap : List (Json × Json)) (lookup : Json → FileLookup)
    (hints : List (Json × Json)) (id : Json) : Option SStr :=
  let fromMap : Option Json :=
    match mapGet fileMap id with
    | some v => if jsTruthy v then some v else none
    | none => none
  let nameJ : Json :=
    match fromMap with
    | some v => v
    | none =>
      match lookup id with
      | .ok j => jsOr (getField j "filename".toList) (jsOr (mapGet hints id) id)
      | .notOk => jsOr (mapGet hints id) id
      | .threw => jsOr (mapGet hints id) id
  match nameJ with
  | .str s => some (prettyTitle (stripExt s))
  | _ => none

/-! ## Theorems -/

/-! ### Line-splitting algebra (chunk-boundary correctness) -/

theorem glueHead_cons (l h : SStr) (t : List SStr) : glueHead l (h :: t) = (l ++ h) :: t := rfl

theorem splitNl_ne_nil (s : SStr) : splitNl s ≠ [] := by
  cases s with
  | nil => simp [splitNl]
  | cons c cs =>
    simp only [splitNl]
    split <;> simp

theorem splitNl_cons_nl (cs : SStr) : splitNl ('\n' :: cs) = [] :: splitNl cs := by
  simp [splitNl]

theorem splitNl_cons_other (c : Char) (hc : ¬ c = '\n') (cs : SStr) :
    splitNl (c :: cs) = (c :: (splitNl cs).headI) :: (splitNl cs).tail := by
  simp [splitNl, hc]

theorem splitNl_no_nl (s : SStr) (h : ('\n' : Char) ∉ s) : splitNl s = [s] := by
  induction s with
  | nil => rfl
  | cons c cs ih =>
    have hc : ¬ c = '\n' := fun hh => h (hh ▸ List.mem_cons_self c cs)
    have hcs : ('\n' : Char) ∉ cs := fun hh => h (List.mem_cons_of_mem c hh)
    simp only [splitNl, ih hcs, if_neg hc, List.headI, List.tail]

theorem no_nl_mem_splitNl (s : SStr) : ∀ l ∈ splitNl s, ('\n' : Char) ∉ l := by
  induction s with
  | nil =>
    intro l hl
    simp [splitNl] at hl
    simp [hl]
  | cons c cs ih =>
    intro l hl
    rcases hr : splitNl cs with _ | ⟨h0, t0⟩
    · exact absurd hr (splitNl_ne_nil cs)
    · simp only [splitNl, hr] at hl
      by_cases hc : c = '\n'
      · rw [if_pos hc] at hl
        rcases List.mem_cons.mp hl with h1 | h1
        · simp [h1]
        · exact ih l (hr ▸ h1)
      · rw [if_neg hc] at hl
        rcases List.mem_cons.mp hl with h1 | h1
        · subst h1
          intro hmem
          rcases List.mem_cons.mp hmem with h2 | h2
          · exact hc h2.symm
          · exact ih h0 (hr ▸ List.mem_cons_self h0 t0) (by simpa using h2)
        · exact ih l (hr ▸ List.mem_cons_of_mem h0 h1)

theorem splitNl_append (a b : SStr) :
    splitNl (a ++ b) = (splitNl a).dropLast ++ glueHead (splitNl a).getLastI (splitNl b) := by
  induction a with
  | nil =>
    rcases hb : splitNl b with _ | ⟨b0, bs⟩
    · exact absurd hb (splitNl_ne_nil b)
    · simp [splitNl, glueHead, List.getLastI, hb]
  | cons c a' ih =>
    rcases hr : splitNl a' with _ | ⟨h0, t0⟩
    · exact absurd hr (splitNl_ne_nil a')
    · rcases hb : splitNl b with _ | ⟨b0, bs⟩
      · exact absurd hb (splitNl_ne_nil b)
      · rw [hr, hb] at ih
        by_cases hc : c = '\n'
        · subst hc
          rw [List.cons_append, splitNl_cons_nl, ih, splitNl_cons_nl, hr]
          rw [List.dropLast_cons_of_ne_nil (by simp : h0 :: t0 ≠ [])]
          have : ([] :: h0 :: t0).getLastI = (h0 :: t0).getLastI := by
            simp [List.getLastI_eq_getLast?]
          rw [this, List.cons_append]
        · rw [List.cons_append, splitNl_cons_other c hc, ih, splitNl_cons_other c hc, hr]
          rcases t0 with _ | ⟨t1, ts⟩
          · simp [glueHead_cons, List.getLastI]
          · rw [glueHead_cons]
            have hdl : (h0 :: t1 :: ts).dropLast = h0 :: (t1 :: ts).dropLast := by simp
            have hgl : (h0 :: t1 :: ts).getLastI = (t1 :: ts).getLastI := by
              simp [List.getLastI_eq_getLast?]
            rw [hdl, hgl, glueHead_cons]
            show (c :: h0) :: ((t1 :: ts).dropLast ++ ((t1 :: ts).getLastI ++ b0) :: bs) =
              ((c :: h0) :: t1 :: ts).dropLast ++ (((c :: h0) :: t1 :: ts).getLastI ++ b0) :: bs
            rw [List.dropLast_cons_of_ne_nil (by simp : t1 :: ts ≠ [])]
            have hgl2 : ((c :: h0) :: t1 :: ts).getLastI = (t1 :: ts).getLastI := by
              simp [List.getLastI_eq_getLast?]
            rw [hgl2]
            simp

theorem getLastI_mem (l : List SStr) (h : l ≠ []) : l.getLastI ∈ l := by
  rw [List.getLastI_eq_getLast?]
  cases hq : l.getLast? with
  | none => exact absurd (List.getLast?_eq_none_iff.mp hq) h
  | some a =>
    simp only [Option.iget_some]
    exact List.mem_of_mem_getLast? hq

theorem no_nl_getLastI (s : SStr) : ('\n' : Char) ∉ (splitNl s).getLastI :=
  no_nl_mem_splitNl s _ (getLastI_mem _ (splitNl_ne_nil s))

theorem glueHead_ne_nil (l : SStr) (bs : List SStr) : glueHead l bs ≠ [] := by
  cases bs <;> simp [glueHead]

theorem getLastI_append_right (l1 l2 : List SStr) (h : l2 ≠ []) :
    (l1 ++ l2).getLastI = l2.getLastI := by
  rw [List.getLastI_eq_getLast?, List.getLastI_eq_getLast?, List.getLast?_append_of_ne_nil _ h]

theorem feed_append (st : RelayState) (a b : SStr) :
    feed (feed st a) b = feed st (a ++ b) := by
  have h1 : splitNl ((splitNl (st.buffer ++ a)).getLastI ++ b)
      = glueHead (splitNl (st.buffer ++ a)).getLastI (splitNl b) := by
    rw [splitNl_append, splitNl_no_nl _ (no_nl_getLastI (st.buffer ++ a))]
    simp [List.getLastI]
  have h2 : splitNl (st.buffer ++ (a ++ b))
      = (splitNl (st.buffer ++ a)).dropLast ++
        glueHead (splitNl (st.buffer ++ a)).getLastI (splitNl b) := by
    rw [← List.append_assoc, splitNl_append]
  show feed { core := (splitNl (st.buffer ++ a)).dropLast.foldl stepLine st.core,
              buffer := (splitNl (st.buffer ++ a)).getLastI } b = _
  simp only [feed, h1, h2]
  rw [List.dropLast_append_of_ne_nil _ (glueHead_ne_nil _ _),
      getLastI_append_right _ _ (glueHead_ne_nil _ _), List.foldl_append]

theorem feed_nil (st : RelayState) (h : ('\n' : Char) ∉ st.buffer) : feed st [] = st := by
  simp only [feed, List.append_nil, splitNl_no_nl st.buffer h]
  simp [List.getLastI]

theorem foldl_feed_flatten : ∀ (chunks : List SStr) (st : RelayState),
    ('\n' : Char) ∉ st.buffer → chunks.foldl feed st = feed st chunks.flatten
  | [], st, h => by rw [List.foldl_nil, List.flatten_nil, feed_nil st h]
  | c :: cs, st, h => by
    rw [List.foldl_cons, List.flatten_cons,
        foldl_feed_flatten cs (feed st c) (no_nl_getLastI _), feed_append]

theorem relayRun_flatten (chunks : List SStr) :
    relayRun chunks = feed initRelay chunks.flatten :=
  foldl_feed_flatten chunks initRelay (by simp [initRelay])

/-- C1: For every upstream byte stream and every way of splitting it into
chunks, the relay's line-buffering (carrying the trailing partial line
across reads and prepending it to the next decoded chunk before
re-splitting on newline) reconstructs and parses each newline-delimited
record identically to when the record arrives unsplit: the whole relay
state — the emitted text increments, the accumulated full answer, the
collected sources, and the trailing buffer — and the emitted frame
sequence depend only on the concatenation of the chunks, so they are the
same for any chunking of the same byte stream. -/
theorem relay_chunking_invariant (cs1 cs2 : List SStr) (h : cs1.flatten = cs2.flatten) :
    relayRun cs1 = relayRun cs2 ∧ relayEmitClean cs1 = relayEmitClean cs2 := by
  have he : relayRun cs1 = relayRun cs2 := by
    rw [relayRun_flatten, relayRun_flatten, h]
  exact ⟨he, by unfold relayEmitClean; rw [he]⟩

/-- Witness for C1: a record split mid-payload across two chunks is
processed exactly as the unsplit record. -/
theorem relay_chunking_invariant_witness :
    relayRun ["data: \x7b\"de".toList, "lta\":\"hi\"\x7d\n".toList] =
        relayRun ["data: \x7b\"delta\":\"hi\"\x7d\n".toList] ∧
      relayEmitClean ["data: \x7b\"de".toList, "lta\":\"hi\"\x7d\n".toList] =
        relayEmitClean ["data: \x7b\"delta\":\"hi\"\x7d\n".toList] :=
  relay_chunking_invariant _ _ (by rfl)

/-! ### The streamed text frames carry exactly the accumulated answer -/

theorem framesText_append (fs gs : List Frame) :
    framesText (fs ++ gs) = framesText fs ++ framesText gs := by
  simp [framesText, List.filterMap_append]

theorem processEvt_text_inv (core : RelayCore) (evt : Json)
    (h : framesText core.output = core.full) :
    framesText (processEvt core evt).output = (processEvt core evt).full := by
  simp only [processEvt]
  repeat' split
  all_goals simp_all [framesText_append, framesText, frameText]

theorem stepLine_text_inv (core : RelayCore) (l : SStr)
    (h : framesText core.output = core.full) :
    framesText (stepLine core l).output = (stepLine core l).full := by
  simp only [stepLine]
  repeat' split
  all_goals first
    | exact h
    | exact processEvt_text_inv _ _ h

theorem foldl_stepLine_text_inv (lines : List SStr) :
    ∀ core : RelayCore, framesText core.output = core.full →
      framesText (lines.foldl stepLine core).output = (lines.foldl stepLine core).full := by
  induction lines with
  | nil => intro core h; exact h
  | cons l ls ih => intro core h; exact ih _ (stepLine_text_inv core l h)

theorem relayRun_text_inv (chunks : List SStr) :
    framesText (relayRun chunks).core.output = (relayRun chunks).core.full := by
  rw [relayRun_flatten]
  exact foldl_stepLine_text_inv _ _ (by simp [framesText, initRelay])

/-- C9: if the upstream stream ends abruptly (read error or connection
drop) before a termination sentinel, the relay has already forwarded every
parsed text increment, so the frames emitted up to the failure carry
exactly the accumulated partial answer — nothing accumulated is discarded —
and the downstream stream is terminated with `controller.error`, a signal
distinct from a clean completion. -/
theorem relay_abrupt_end_preserves_text (chunks : List SStr) :
    framesText (relayEmitAborted chunks).1 = (relayRun chunks).core.full ∧
      (relayEmitAborted chunks).2 = StreamEnd.errored ∧
      StreamEnd.errored ≠ StreamEnd.clean :=
  ⟨relayRun_text_inv chunks, rfl, by decide⟩

/-! ### Shape of the emitted frame sequence -/

theorem processEvt_output_frames (core : RelayCore) (evt : Json)
    (h : ∀ f ∈ core.output, (frameText f).isSome) :
    ∀ f ∈ (processEvt core evt).output, (frameText f).isSome := by
  simp only [processEvt]
  repeat' split
  all_goals intro f hf
  all_goals try exact h f hf
  all_goals
    rcases List.mem_append.mp hf with h1 | h1
  all_goals try exact h f h1
  all_goals
    simp only [List.mem_singleton] at h1
    subst h1
    simp [frameText]

theorem stepLine_output_frames (core : RelayCore) (l : SStr)
    (h : ∀ f ∈ core.output, (frameText f).isSome) :
    ∀ f ∈ (stepLine core l).output, (frameText f).isSome := by
  simp only [stepLine]
  repeat' split
  all_goals first
    | exact h
    | exact processEvt_output_frames _ _ h

theorem foldl_stepLine_output_frames (lines : List SStr) :
    ∀ core : RelayCore, (∀ f ∈ core.output, (frameText f).isSome) →
      ∀ f ∈ (lines.foldl stepLine core).output, (frameText f).isSome := by
  induction lines with
  | nil => intro core h; exact h
  | cons l ls ih => intro core h; exact ih _ (stepLine_output_frames core l h)

theorem relayRun_output_frames (chunks : List SStr) :
    ∀ f ∈ (relayRun chunks).core.output, (frameText f).isSome := by
  rw [relayRun_flatten]
  exact foldl_stepLine_output_frames _ _ (by simp [initRelay])

theorem sendText_frames (out : List Frame) (s : SStr)
    (h : ∀ f ∈ out, (frameText f).isSome) :
    ∀ f ∈ sendText out s, (frameText f).isSome := by
  simp only [sendText]
  split
  · exact h
  · intro f hf
    rcases List.mem_append.mp hf with h1 | h1
    · exact h f h1
    · simp only [List.mem_singleton] at h1
      subst h1
      simp [frameText]

theorem stepLine001_frames (out : List Frame) (l : SStr)
    (h : ∀ f ∈ out, (frameText f).isSome) :
    ∀ f ∈ stepLine001 out l, (frameText f).isSome := by
  simp only [stepLine001]
  repeat' split
  all_goals first
    | exact h
    | exact sendText_frames _ _ h

theorem foldl_stepLine001_frames (lines : List SStr) :
    ∀ out : List Frame, (∀ f ∈ out, (frameText f).isSome) →
      ∀ f ∈ lines.foldl stepLine001 out, (frameText f).isSome := by
  induction lines with
  | nil => intro out h; exact h
  | cons l ls ih => intro out h; exact ih _ (stepLine001_frames out l h)

theorem relay001Run_frames (chunks : List SStr) :
    ∀ f ∈ (relay001Run chunks).output, (frameText f).isSome := by
  have key : ∀ (cs : List SStr) (st : Relay001State),
      (∀ f ∈ st.output, (frameText f).isSome) →
      ∀ f ∈ (cs.foldl feed001 st).output, (frameText f).isSome := by
    intro cs
    induction cs with
    | nil => intro st h; exact h
    | cons c cs' ih =>
      intro st h
      exact ih _ (foldl_stepLine001_frames _ _ h)
  exact key chunks _ (by simp)

theorem text_frame_not_done (f : Frame) (h : (frameText f).isSome) :
    isDoneFrame f = false ∧ f ≠ Frame.doneSentinel := by
  cases f <;> simp_all [frameText, isDoneFrame]

/-- C4 (amended): for the chat.js relay, every completed stream's emitted
frame sequence ends with exactly one completion frame — embedding the full
accumulated answer and the deduplicated source list — followed by the
`[DONE]` sentinel, with only `output_text` frames before it.  The part_001
variant, by contrast, emits no completion frame at all: its frame sequence
ends with the bare `[DONE]` sentinel. -/
theorem relay_terminal_frame (chunks : List SStr) :
    (∃ body, relayEmitClean chunks =
        body ++ [Frame.doneFrame (relayRun chunks).core.full (relaySources (relayRun chunks)),
          Frame.doneSentinel] ∧ ∀ f ∈ body, (frameText f).isSome) ∧
      (relayEmitClean chunks).countP (fun f => isDoneFrame f) = 1 ∧
      (relay001EmitClean chunks).countP (fun f => isDoneFrame f) = 0 ∧
      (relay001EmitClean chunks).getLast? = some Frame.doneSentinel := by
  have hbody0 : ((relayRun chunks).core.output).countP (fun f => isDoneFrame f) = 0 :=
    List.countP_eq_zero.mpr fun f hf => by
      simp [(text_frame_not_done f (relayRun_output_frames chunks f hf)).1]
  have h001 : ((relay001Run chunks).output).countP (fun f => isDoneFrame f) = 0 :=
    List.countP_eq_zero.mpr fun f hf => by
      simp [(text_frame_not_done f (relay001Run_frames chunks f hf)).1]
  refine ⟨⟨(relayRun chunks).core.output, rfl, relayRun_output_frames chunks⟩, ?_, ?_, ?_⟩
  · unfold relayEmitClean
    rw [List.countP_append, hbody0]
    simp [List.countP_cons, isDoneFrame]
  · unfold relay001EmitClean
    rw [List.countP_append, h001]
    simp [List.countP_cons, isDoneFrame]
  · unfold relay001EmitClean
    exact List.getLast?_concat _

/-- Counterexample for C4 as stated: the part_001 relay (one of the cited
code locations) completes a stream without emitting any completion frame —
the emitted sequence is just the text frames followed by the sentinel. -/
theorem relay001_no_terminal_frame_cex :
    relay001EmitClean ["data: \x7b\"delta\":\"hi\"\x7d\n".toList] =
        [Frame.outputText ('h' :: 'i' :: []), Frame.doneSentinel] ∧
      (relay001EmitClean ["data: \x7b\"delta\":\"hi\"\x7d\n".toList]).countP
        (fun f => isDoneFrame f) = 0 := by
  exact ⟨by rfl, by rfl⟩

/-! ### Malformed stream frames -/

/-- C7 (amended): in the chat.js relay, a `data:` line whose payload fails
to parse as JSON leaves the relay state exactly unchanged — it contributes
nothing to the emitted output, the accumulated answer, or the source map —
and the processing of the surrounding lines is unaffected (dropping the
line from the stream yields the same fold).  In the permissive part_001
variant, the same malformed payload is instead forwarded verbatim as an
`output_text` frame. -/
theorem relay_malformed_frame_dropped (core : RelayCore) (line : SStr)
    (hp : hasPrefixCS "data:".toList (jsTrimStart line) = true)
    (hne : jsTrim ((jsTrimStart line).drop 5) ≠ [])
    (hnd : jsTrim ((jsTrimStart line).drop 5) ≠ "[DONE]".toList)
    (hpj : parseJson (jsTrim ((jsTrimStart line).drop 5)) = none) :
    stepLine core line = core ∧
      (∀ (pre post : List SStr) (c0 : RelayCore),
        (pre ++ line :: post).foldl stepLine c0 = (pre ++ post).foldl stepLine c0) ∧
      (∀ out : List Frame,
        stepLine001 out line = out ++ [Frame.outputText (jsTrim ((jsTrimStart line).drop 5))]) := by
  have hstep : ∀ c : RelayCore, stepLine c line = c := by
    intro c
    simp only [stepLine, hp, if_true]
    rw [if_neg (not_or.mpr ⟨hne, fun hh => hnd hh⟩), hpj]
  refine ⟨hstep core, ?_, ?_⟩
  · intro pre post c0
    rw [List.foldl_append, List.foldl_append, List.foldl_cons, hstep]
  · intro out
    simp only [stepLine001, hp, if_true]
    rw [if_neg (not_or.mpr ⟨hne, fun hh => hnd hh⟩), hpj]
    simp [sendText, hne]

/-- Witness for C7: the concrete malformed payload `notjson` is dropped by
the chat.js relay and forwarded by part_001. -/
theorem relay_malformed_frame_dropped_witness :
    stepLine { full := [], output := [], foundFiles := [] } "data: notjson".toList =
        { full := [], output := [], foundFiles := [] } ∧
      stepLine001 [] "data: notjson".toList = [Frame.outputText "notjson".toList] := by
  have h := relay_malformed_frame_dropped { full := [], output := [], foundFiles := [] }
    "data: notjson".toList (by rfl) (by decide) (by decide) (by rfl)
  refine ⟨h.1, ?_⟩
  have h2 := h.2.2 []
  simpa using h2

/-- Counterexample for C7 as stated: in the cited part_001 variant a
malformed frame is not dropped silently — it is forwarded verbatim as an
`output_text` frame, contributing to the emitted output. -/
theorem relay001_malformed_forwarded_cex :
    parseJson "notjson".toList = none ∧
      stepLine001 [] "data: notjson".toList =
        [Frame.outputText ('n' :: 'o' :: 't' :: 'j' :: 's' :: 'o' :: 'n' :: [])] :=
  ⟨rfl, rfl⟩

/-! ### Upstream failure handling -/

/-- C5 (amended): on an upstream response with non-success status (after a
valid request and configuration), the non-streaming chat2.js endpoint
returns the upstream's own status code with the upstream body, without
parsing an answer (the outcome is the pass-through branch, never the
success branch); the streaming chat.js endpoint also skips answer parsing
but replies with status 502, embedding the upstream status only in the
response text. -/
theorem upstream_error_passthrough (body : Json) (env : Env) (u : Upstream)
    (uJson : Option Json) (origin : Option SStr)
    (hmsg : computeUserMessage body ≠ [])
    (hkey : env.OPENAI_API_KEY ≠ [])
    (hvs : env.OPENAI_VECTOR_STORE_ID ≠ [])
    (hok : u.ok = false) :
    onRequestChat2 "POST".toList (BodyParse.ok body) env u uJson =
        Chat2Outcome.upstreamError ⟨u.status, u.bodyText⟩ ∧
      onRequestPostChat origin (BodyParse.ok body) env u =
        ChatOutcome.upstreamError
          ⟨502, "Upstream error: ".toList ++ natToStr u.status ++ ' ' :: u.bodyText⟩ := by
  constructor
  · simp [onRequestChat2, hmsg, hkey, hvs, hok]
  · simp [onRequestPostChat, ALLOWED_ORIGINS, hmsg, hkey, hvs, hok]

/-- Witness for C5: a concrete 404 upstream failure is passed through by
chat2.js with status 404. -/
theorem upstream_error_passthrough_witness :
    onRequestChat2 "POST".toList
        (BodyParse.ok (Json.obj [(('m' :: 's' :: 'g' :: []), Json.null),
          ("message".toList, Json.str ('h' :: 'i' :: []))])) 
        ⟨('k' :: []), ('v' :: []), [], []⟩ ⟨false, false, 404, ('e' :: [])⟩ none =
      Chat2Outcome.upstreamError ⟨404, ('e' :: [])⟩ :=
  (upstream_error_passthrough _ _ _ _ none (by decide) (by decide) (by decide) (by rfl)).1

/-- Counterexample for C5 as stated: the cited chat.js error branch does
not carry the upstream's own status — an upstream 401 produces a response
with status 502. -/
theorem chat_upstream_error_502_cex :
    onRequestPostChat none
        (BodyParse.ok (Json.obj [("message".toList, Json.str ('h' :: 'i' :: []))]))
        ⟨('k' :: []), ('v' :: []), [], []⟩ ⟨false, false, 401, []⟩ =
        ChatOutcome.upstreamError ⟨502, "Upstream error: 401 ".toList⟩ ∧
      (502 : Nat) ≠ 401 :=
  ⟨rfl, by decide⟩

/-! ### Request message validation -/

theorem jsTrim_all_ws (t : SStr) (h : t.all isJsWs) : jsTrim t = [] := by
  have h1 : t.dropWhile isJsWs = [] :=
    List.dropWhile_eq_nil_iff.mpr fun x hx => List.all_eq_true.mp h x hx
  simp [jsTrim, h1]

/-- A string-valued `message` field reaches the handler as its first 4000
characters, trimmed. -/
theorem computeUserMessage_str (body : Json) (s : SStr)
    (h : getField body "message".toList = some (Json.str s)) :
    computeUserMessage body = jsTrim (s.take 4000) := by
  unfold computeUserMessage
  rw [h]
  by_cases hs : s = []
  · subst hs
    simp [jsOr, jsTruthy, jsToString]
  · simp [jsOr, jsTruthy, hs, jsToString]

theorem empty_message_400 (body : Json) (env : Env) (origin : Option SStr)
    (h : computeUserMessage body = []) :
    (∀ u : Upstream, onRequestPostChat origin (BodyParse.ok body) env u =
        ChatOutcome.earlyResponse ⟨400, "Missing \x27message\x27".toList⟩) ∧
      (∀ (u : Upstream) (uJson : Option Json),
        onRequestChat2 "POST".toList (BodyParse.ok body) env u uJson =
          Chat2Outcome.earlyResponse ⟨400, "Missing \x27message\x27".toList⟩) := by
  constructor
  · intro u
    simp [onRequestPostChat, ALLOWED_ORIGINS, h]
  · intro u uJson
    simp [onRequestChat2, h]

/-- C6: a request whose message is empty after truncation and trimming
(including whitespace-only bodies) is rejected with a 400 response by both
the streaming and the non-streaming endpoints, before any upstream call:
the outcome is the early-response branch and is the same for every
possible upstream response, so the upstream fetch is unreachable. -/
theorem empty_message_rejected (body : Json) (env : Env) (origin : Option SStr)
    (h : computeUserMessage body = []) :
    (∀ u : Upstream, onRequestPostChat origin (BodyParse.ok body) env u =
        ChatOutcome.earlyResponse ⟨400, "Missing \x27message\x27".toList⟩) ∧
      (∀ (u : Upstream) (uJson : Option Json),
        onRequestChat2 "POST".toList (BodyParse.ok body) env u uJson =
          Chat2Outcome.earlyResponse ⟨400, "Missing \x27message\x27".toList⟩) :=
  empty_message_400 body env origin h

/-- Witness for C6: a whitespace-only message is rejected with 400 for an
arbitrary upstream. -/
theorem empty_message_rejected_witness :
    onRequestPostChat none
        (BodyParse.ok (Json.obj [("message".toList, Json.str (' ' :: ' ' :: '\t' :: []))]))
        ⟨('k' :: []), ('v' :: []), [], []⟩ ⟨true, true, 200, []⟩ =
      ChatOutcome.earlyResponse ⟨400, "Missing \x27message\x27".toList⟩ :=
  (empty_message_rejected _ ⟨('k' :: []), ('v' :: []), [], []⟩ none (by rfl)).1
    ⟨true, true, 200, []⟩

/-- C10 (amended): the message is truncated to 4000 characters before
trimming: a message whose first 4000 characters are all whitespace is
rejected with 400 even when non-whitespace content follows beyond position
4000; characters past the first 4000 never influence the outcome (two
messages agreeing on their first 4000 characters are handled identically,
so the upstream call sees only the truncated text); a truthy non-string
message value is coerced with `toString` and accepted exactly when its
coercion is nonempty after truncation and trimming; a falsy message value
(`0`, `false`, `null`) is replaced by the empty-string default and
rejected with 400 rather than coerced; and a truthy value whose coercion
trims to empty (such as `[]`) is likewise rejected with 400. -/
theorem message_truncation_semantics :
    (∀ (s : SStr) (env : Env) (origin : Option SStr) (u : Upstream),
      (s.take 4000).all isJsWs →
      onRequestPostChat origin (BodyParse.ok (Json.obj [("message".toList, Json.str s)])) env u =
        ChatOutcome.earlyResponse ⟨400, "Missing \x27message\x27".toList⟩) ∧
    (∀ (s t : SStr) (env : Env) (origin : Option SStr) (u : Upstream),
      s.take 4000 = t.take 4000 →
      onRequestPostChat origin (BodyParse.ok (Json.obj [("message".toList, Json.str s)])) env u =
        onRequestPostChat origin (BodyParse.ok (Json.obj [("message".toList, Json.str t)])) env u) ∧
    (∀ (v : Json) (env : Env) (origin : Option SStr) (u : Upstream),
      jsTruthy v = true → jsTrim ((jsToString v).take 4000) ≠ [] →
      env.OPENAI_API_KEY ≠ [] → env.OPENAI_VECTOR_STORE_ID ≠ [] →
      u.ok = true → u.hasBody = true →
      onRequestPostChat origin (BodyParse.ok (Json.obj [("message".toList, v)])) env u =
        ChatOutcome.streamRelay
          ⟨if env.MODEL_ID = [] then MODEL_FALLBACK else env.MODEL_ID,
           if env.SYSTEM_PROMPT = [] then defaultSystemPrompt else env.SYSTEM_PROMPT,
           jsTrim ((jsToString v).take 4000), true⟩) ∧
    (∀ (v : Json) (env : Env) (origin : Option SStr) (u : Upstream),
      jsTruthy v = false →
      onRequestPostChat origin (BodyParse.ok (Json.obj [("message".toList, v)])) env u =
        ChatOutcome.earlyResponse ⟨400, "Missing \x27message\x27".toList⟩) ∧
    (∀ (v : Json) (env : Env) (origin : Option SStr) (u : Upstream),
      jsTruthy v = true → jsTrim ((jsToString v).take 4000) = [] →
      onRequestPostChat origin (BodyParse.ok (Json.obj [("message".toList, v)])) env u =
        ChatOutcome.earlyResponse ⟨400, "Missing \x27message\x27".toList⟩) := by
  have hget : ∀ v : Json, getField (Json.obj [("message".toList, v)]) "message".toList = some v := by
    intro v
    simp [getField]
  refine ⟨?_, ?_, ?_, ?_, ?_⟩
  · intro s env origin u hws
    have hmsg : computeUserMessage (Json.obj [("message".toList, Json.str s)]) = [] := by
      rw [computeUserMessage_str _ s (hget (Json.str s))]
      exact jsTrim_all_ws _ hws
    exact (empty_message_400 _ env origin hmsg).1 u
  · intro s t env origin u htake
    have h1 : computeUserMessage (Json.obj [("message".toList, Json.str s)]) =
        computeUserMessage (Json.obj [("message".toList, Json.str t)]) := by
      rw [computeUserMessage_str _ s (hget (Json.str s)),
          computeUserMessage_str _ t (hget (Json.str t)), htake]
    simp only [onRequestPostChat, h1]
  · intro v env origin u htru hne hkey hvs hok hbody
    have hmsg : computeUserMessage (Json.obj [("message".toList, v)]) =
        jsTrim ((jsToString v).take 4000) := by
      unfold computeUserMessage
      rw [hget v]
      simp [jsOr, htru]
    simp only [onRequestPostChat]
    rw [hmsg]
    simp [ALLOWED_ORIGINS, hne, hkey, hvs, hok, hbody]
  · intro v env origin u hfal
    have hmsg : computeUserMessage (Json.obj [("message".toList, v)]) = [] := by
      unfold computeUserMessage
      rw [hget v]
      have hor : jsOr (some v) (Json.str []) = Json.str [] := by
        simp [jsOr, hfal]
      rw [hor]
      rfl
    exact (empty_message_400 _ env origin hmsg).1 u
  · intro v env origin u htru hemp
    have hmsg : computeUserMessage (Json.obj [("message".toList, v)]) = [] := by
      unfold computeUserMessage
      rw [hget v]
      simp [jsOr, htru, hemp]
    exact (empty_message_400 _ env origin hmsg).1 u

/-- Witness for C10: whitespace in the first 4000 characters with content
beyond is rejected; truncation congruence holds on concrete chunks; the
truthy number `42` is coerced to `"42"` and sent upstream; the truthy
empty array coerces to the empty string and is rejected; the claim's
clauses are exercised at concrete inputs. -/
theorem message_truncation_semantics_witness :
    onRequestPostChat none
        (BodyParse.ok (Json.obj [("message".toList,
          Json.str (List.replicate 4000 ' ' ++ ('h' :: 'i' :: [])))]))
        ⟨('k' :: []), ('v' :: []), [], []⟩ ⟨true, true, 200, []⟩ =
        ChatOutcome.earlyResponse ⟨400, "Missing \x27message\x27".toList⟩ ∧
      onRequestPostChat none
        (BodyParse.ok (Json.obj [("message".toList, Json.num ('4' :: '2' :: []))]))
        ⟨('k' :: []), ('v' :: []), [], []⟩ ⟨true, true, 200, []⟩ =
        ChatOutcome.streamRelay
          ⟨MODEL_FALLBACK, defaultSystemPrompt, ('4' :: '2' :: []), true⟩ ∧
      onRequestPostChat none
        (BodyParse.ok (Json.obj [("message".toList, Json.arr [])]))
        ⟨('k' :: []), ('v' :: []), [], []⟩ ⟨true, true, 200, []⟩ =
        ChatOutcome.earlyResponse ⟨400, "Missing \x27message\x27".toList⟩ := by
  have hws : ((List.replicate 4000 ' ' ++ ('h' :: 'i' :: [])).take 4000).all isJsWs := by
    rw [List.take_append_of_le_length (by simp only [List.length_replicate]; exact le_rfl)]
    rw [List.take_replicate]
    refine List.all_eq_true.mpr fun x hx => ?_
    rw [List.eq_of_mem_replicate hx]
    rfl
  refine ⟨?_, ?_, ?_⟩
  · exact (message_truncation_semantics).1 _ _ none _ hws
  · have h := (message_truncation_semantics).2.2.1 (Json.num ('4' :: '2' :: []))
      ⟨('k' :: []), ('v' :: []), [], []⟩ none ⟨true, true, 200, []⟩
      (by rfl) (by decide) (by simp) (by simp) (by rfl) (by rfl)
    simpa using h
  · exact (message_truncation_semantics).2.2.2.2 (Json.arr [])
      ⟨('k' :: []), ('v' :: []), [], []⟩ none ⟨true, true, 200, []⟩ (by rfl) (by rfl)

/-- Counterexample for C10 as stated: a boolean `message` value `false` is
not coerced to `"false"` and accepted — it is falsy, so the default empty
string replaces it and the request is rejected with 400. -/
theorem message_false_rejected_cex :
    onRequestPostChat none (BodyParse.ok (Json.obj [("message".toList, Json.bool false)]))
        ⟨('k' :: []), ('v' :: []), [], []⟩ ⟨true, true, 200, []⟩ =
      ChatOutcome.earlyResponse ⟨400, "Missing \x27message\x27".toList⟩ :=
  rfl

/-! ### Display-name resolution (part_004) -/

theorem stripExt_ne_nil (s : SStr) (h : s ≠ []) : stripExt s ≠ [] := by
  intro hc
  apply h
  simp only [stripExt] at hc
  split at hc
  · split at hc
    · next hi =>
      rw [List.take_eq_nil_iff] at hc
      rcases hc with hc | hc
      · omega
      · exact hc
    · exact hc
  · exact hc

theorem hint_fall_ne_nil (hints : List (Json × Json)) (s out : SStr)
    (hs : s ≠ [])
    (hhint : ∀ hv, mapGet hints (Json.str s) = some hv → ∃ hs2, hv = Json.str hs2 ∧ hs2 ≠ [])
    (hres : (match jsOr (mapGet hints (Json.str s)) (Json.str s) with
             | Json.str h => some (stripExt h)
             | _ => none) = some out) : out ≠ [] := by
  rcases hget : mapGet hints (Json.str s) with _ | hv
  · rw [hget] at hres
    simp only [jsOr] at hres
    injection hres with hres
    exact hres ▸ stripExt_ne_nil s hs
  · rcases hhint hv hget with ⟨hs2, rfl, hne2⟩
    have htru : jsTruthy (Json.str hs2) = true := by simp [jsTruthy, hne2]
    rw [hget] at hres
    simp only [jsOr, htru, if_true] at hres
    injection hres with hres
    exact hres ▸ stripExt_ne_nil hs2 hne2

/-- C8 (amended): enrichment is a pure function of the preloaded map, the
lookup outcome, the hint map, and the identifier, hence deterministic.
part_004: on lookup failure it falls back to the extension-stripped best
available hint and then to the extension-stripped identifier string; a
TypeError from a non-string resolved filename is caught per-id and
recovers through the hint chain; for a nonempty string identifier (with
any hints the stream can record, which are truthy) it never produces an
empty entry; resolving the same identifier twice yields one identical
entry.  part_002: the fallback name additionally passes through
prettyTitle, which can replace it with a canned document title (hint
Declaration.pdf) and can even yield an empty entry (hint v1.pdf). -/
theorem resolve_fallback_semantics :
    (∀ (lookup : Json → FileLookup) (hints : List (Json × Json)) (idv : Json) (h : SStr),
      (lookup idv = FileLookup.notOk ∨ lookup idv = FileLookup.threw) →
      mapGet hints idv = some (Json.str h) → h ≠ [] →
      resolve004Name lookup hints idv = some (stripExt h)) ∧
    (∀ (lookup : Json → FileLookup) (hints : List (Json × Json)) (s : SStr),
      (lookup (Json.str s) = FileLookup.notOk ∨ lookup (Json.str s) = FileLookup.threw) →
      mapGet hints (Json.str s) = none →
      resolve004Name lookup hints (Json.str s) = some (stripExt s)) ∧
    (∀ (lookup : Json → FileLookup) (hints : List (Json × Json)) (s : SStr) (out : SStr),
      s ≠ [] → (∀ hv, mapGet hints (Json.str s) = some hv → ∃ hs, hv = Json.str hs ∧ hs ≠ []) →
      resolve004Name lookup hints (Json.str s) = some out → out ≠ []) ∧
    (∀ (lookup : Json → FileLookup) (hints : List (Json × Json)) (idv : Json) (n : SStr),
      resolve004Name lookup hints idv = some n →
      resolveDisplayNames lookup hints [idv, idv] = some [n]) ∧
    (∀ (lookup : Json → FileLookup) (hints : List (Json × Json)) (j : Json) (idv : Json)
      (fv : Json) (h : SStr),
      lookup idv = FileLookup.ok j →
      getField j ('f' :: 'i' :: 'l' :: 'e' :: 'n' :: 'a' :: 'm' :: 'e' :: []) = some fv →
      jsTruthy fv = true → (∀ t, fv ≠ Json.str t) →
      mapGet hints idv = some (Json.str h) → h ≠ [] →
      resolve004Name lookup hints idv = some (stripExt h)) ∧
    (∀ (fileMap : List (Json × Json)) (lookup : Json → FileLookup)
      (hints : List (Json × Json)) (idv : Json) (h : SStr),
      mapGet fileMap idv = none →
      (lookup idv = FileLookup.notOk ∨ lookup idv = FileLookup.threw) →
      mapGet hints idv = some (Json.str h) → h ≠ [] →
      resolve002Name fileMap lookup hints idv = some (prettyTitle (stripExt h))) ∧
    (resolve002Name [] (fun _ => FileLookup.notOk)
        [(Json.str ('f' :: '1' :: []), Json.str "Declaration.pdf".toList)]
        (Json.str ('f' :: '1' :: [])) =
      some ("Declaration of ".toList ++ hcccStr) ∧
    resolve002Name [] (fun _ => FileLookup.notOk)
        [(Json.str ('f' :: '2' :: []), Json.str "v1.pdf".toList)]
        (Json.str ('f' :: '2' :: [])) = some []) := by
  refine ⟨?pa, ?pb, ?pc, ?pd, ?pe, ?pf, ?pg⟩
  · intro lookup hints idv h hfail hhint hne
    rcases hfail with hf | hf <;>
      simp [resolve004Name, hf, hhint, jsOr, jsTruthy, hne]
  · intro lookup hints s hfail hhint
    rcases hfail with hf | hf <;>
      simp [resolve004Name, hf, hhint, jsOr]
  · intro lookup hints s out hs hhint hres
    rcases hcase : lookup (Json.str s) with _ | _ | j
    · simp only [resolve004Name, hcase] at hres
      exact hint_fall_ne_nil hints s out hs hhint hres
    · simp only [resolve004Name, hcase] at hres
      exact hint_fall_ne_nil hints s out hs hhint hres
    · rcases hj : getField j "filename".toList with _ | fv
      · simp only [resolve004Name, hcase, hj, jsOr] at hres
        injection hres with hres
        exact hres ▸ stripExt_ne_nil s hs
      · by_cases htru : jsTruthy fv = true
        · simp only [resolve004Name, hcase, hj, jsOr, htru, if_true] at hres
          cases fv with
          | str fs =>
            simp only [] at hres
            injection hres with hres
            have hfs : fs ≠ [] := by simpa [jsTruthy] using htru
            exact hres ▸ stripExt_ne_nil fs hfs
          | null => exact hint_fall_ne_nil hints s out hs hhint hres
          | bool b => exact hint_fall_ne_nil hints s out hs hhint hres
          | num r => exact hint_fall_ne_nil hints s out hs hhint hres
          | arr xs => exact hint_fall_ne_nil hints s out hs hhint hres
          | obj fls => exact hint_fall_ne_nil hints s out hs hhint hres
        · simp only [resolve004Name, hcase, hj, jsOr, htru, if_false] at hres
          injection hres with hres
          exact hres ▸ stripExt_ne_nil s hs
  · intro lookup hints idv n hres
    unfold resolveDisplayNames
    have h2 : resolve004Names lookup hints [idv, idv] = some [n, n] := by
      simp [resolve004Names, hres]
    rw [h2]
    simp [firstSeen, insAbsent]
  · intro lookup hints j idv fv h hok hj htru hnstr hhint hne
    have hj2 : getField j "filename".toList = some fv := hj
    simp only [resolve004Name, hok, hj2, jsOr, htru, if_true]
    cases fv with
    | str t => exact absurd rfl (hnstr t)
    | null => simp [hhint, jsOr, jsTruthy, hne]
    | bool b => simp [hhint, jsOr, jsTruthy, hne]
    | num r => simp [hhint, jsOr, jsTruthy, hne]
    | arr xs => simp [hhint, jsOr, jsTruthy, hne]
    | obj fls => simp [hhint, jsOr, jsTruthy, hne]
  · intro fileMap lookup hints idv h hmap hfail hhint hne
    rcases hfail with hf | hf <;>
      simp [resolve002Name, hmap, hf, hhint, jsOr, jsTruthy, hne]
  · exact ⟨rfl, rfl⟩

/-- Witness for C8: a failing lookup with no hint falls back to the
stripped identifier; resolving the same id twice yields one entry; a
truthy non-string filename recovers through the hint; part_002 applies
prettyTitle to the stripped hint. -/
theorem resolve_fallback_semantics_witness :
    resolve004Name (fun _ => FileLookup.notOk) [] (Json.str ('f' :: '1' :: [])) =
        some ('f' :: '1' :: []) ∧
      resolveDisplayNames (fun _ => FileLookup.notOk) []
        [Json.str ('f' :: '1' :: []), Json.str ('f' :: '1' :: [])] =
        some [('f' :: '1' :: [])] ∧
      resolve004Name (fun _ => FileLookup.ok
          (Json.obj [(('f' :: 'i' :: 'l' :: 'e' :: 'n' :: 'a' :: 'm' :: 'e' :: []),
            Json.num ('7' :: []))]))
        [(Json.str ('f' :: '3' :: []), Json.str ('d' :: 'o' :: 'c' :: '.' :: 'p' :: 'd' :: 'f' :: []))]
        (Json.str ('f' :: '3' :: [])) =
        some (stripExt ('d' :: 'o' :: 'c' :: '.' :: 'p' :: 'd' :: 'f' :: [])) ∧
      resolve002Name [] (fun _ => FileLookup.notOk)
        [(Json.str ('f' :: '3' :: []), Json.str ('d' :: 'o' :: 'c' :: '.' :: 'p' :: 'd' :: 'f' :: []))]
        (Json.str ('f' :: '3' :: [])) =
        some (prettyTitle (stripExt ('d' :: 'o' :: 'c' :: '.' :: 'p' :: 'd' :: 'f' :: []))) := by
  have h1 := (resolve_fallback_semantics).2.1 (fun _ => FileLookup.notOk) []
    ('f' :: '1' :: []) (Or.inl rfl) rfl
  refine ⟨h1, (resolve_fallback_semantics).2.2.2.1 _ [] _ _ h1, ?_, ?_⟩
  · exact (resolve_fallback_semantics).2.2.2.2.1 _ _ _ _ (Json.num ('7' :: [])) _
      rfl rfl (by decide) (fun t ht => by cases ht) rfl (by decide)
  · exact (resolve_fallback_semantics).2.2.2.2.2.1 [] _ _ _ _
      rfl (Or.inl rfl) rfl (by decide)

/-- Counterexample for C8 as stated: on lookup failure with no hint the
code pushes `stripExt(id)`, not the identifier string itself — an
identifier containing a dot is truncated. -/
theorem resolve_fallback_stripext_cex :
    resolve004Name (fun _ => FileLookup.notOk) [] (Json.str ('a' :: '.' :: 'b' :: [])) =
        some ('a' :: []) ∧
      ('a' :: []) ≠ ('a' :: '.' :: 'b' :: []) :=
  ⟨rfl, by decide⟩

/-! ### The `foundFiles` map holds distinct ids in first-seen order -/

theorem mapSet_keys (m : List (Json × Json)) (k v : Json) :
    (mapSet m k v).map Prod.fst = insAbsent (m.map Prod.fst) k := by
  unfold mapSet insAbsent
  by_cases hmem : m.any (fun p => p.1 = k)
  · have hk : k ∈ m.map Prod.fst := by
      rcases List.any_eq_true.mp hmem with ⟨p, hp, hpe⟩
      exact List.mem_map.mpr ⟨p, hp, by simpa using hpe⟩
    rw [if_pos hmem, if_pos hk, List.map_map]
    apply List.map_congr_left
    intro p hp
    by_cases hpk : p.1 = k
    · simp [hpk]
    · simp [hpk]
  · have hk : k ∉ m.map Prod.fst := by
      intro hkm
      rcases List.mem_map.mp hkm with ⟨p, hp, hpe⟩
      exact hmem (List.any_eq_true.mpr ⟨p, hp, by simpa using hpe⟩)
    rw [if_neg hmem, if_neg hk, List.map_append]
    rfl

theorem collectResult_keys (found : List (Json × Json)) (r : Json) :
    (collectResult found r).map Prod.fst =
      match resultIdOf r with
      | some idv => insAbsent (found.map Prod.fst) idv
      | none => found.map Prod.fst := by
  unfold collectResult
  cases resultIdOf r
  · rfl
  · exact mapSet_keys _ _ _

theorem collectResults_keys (rs : List Json) : ∀ found : List (Json × Json),
    ((collectResults found rs).1.map Prod.fst =
        (collectIds rs).1.foldl insAbsent (found.map Prod.fst)) ∧
      (collectResults found rs).2 = (collectIds rs).2 := by
  induction rs with
  | nil => intro found; exact ⟨rfl, rfl⟩
  | cons r rs' ih =>
    intro found
    by_cases hn : r = Json.null
    · simp [collectResults, collectIds, hn]
    · simp only [collectResults, collectIds, if_neg hn]
      cases hid : resultIdOf r with
      | none =>
        have h1 := ih (collectResult found r)
        have h2 : (collectResult found r).map Prod.fst = found.map Prod.fst := by
          rw [collectResult_keys, hid]
        rw [h2] at h1
        exact h1
      | some idv =>
        have h1 := ih (collectResult found r)
        have h2 : (collectResult found r).map Prod.fst =
            insAbsent (found.map Prod.fst) idv := by
          rw [collectResult_keys, hid]
        rw [h2] at h1
        simpa using h1

theorem processEvt_foundFiles (core : RelayCore) (evt : Json) :
    (processEvt core evt).foundFiles =
      match getField evt "results".toList with
      | some (Json.arr rs) =>
        let pr := collectResults core.foundFiles rs
        if pr.2 then pr.1
        else if typeMentionsFileSearch evt then (collectResults pr.1 rs).1
        else pr.1
      | _ => core.foundFiles := by
  unfold processEvt
  repeat' split
  all_goals try rfl
  all_goals try simp_all
  all_goals rw [apply_ite RelayCore.foundFiles]

theorem processEvt_keys (core : RelayCore) (evt : Json) :
    (processEvt core evt).foundFiles.map Prod.fst =
      (evtIds evt).foldl insAbsent (core.foundFiles.map Prod.fst) := by
  rw [processEvt_foundFiles]
  unfold evtIds
  cases hres : getField evt "results".toList with
  | none => rfl
  | some v =>
    cases v with
    | arr rs =>
      simp only []
      have h1 := (collectResults_keys rs core.foundFiles).1
      have h2 := (collectResults_keys rs core.foundFiles).2
      by_cases hthrew : (collectResults core.foundFiles rs).2 = true
      · rw [if_pos hthrew]
        have : (collectIds rs).2 = true := h2 ▸ hthrew
        rw [if_neg (by simp [this])]
        simpa using h1
      · rw [if_neg hthrew]
        have hids2 : (collectIds rs).2 = false := by
          rw [← h2]
          exact Bool.eq_false_iff.mpr hthrew
        by_cases htype : typeMentionsFileSearch evt = true
        · rw [if_pos htype, if_pos (by simp [hids2, htype])]
          rw [List.foldl_append, ← h1]
          exact (collectResults_keys rs (collectResults core.foundFiles rs).1).1
        · rw [if_neg htype, if_neg (by simp [htype])]
          simpa using h1
    | null => rfl
    | bool b => rfl
    | num r => rfl
    | str s => rfl
    | obj fs => rfl

theorem stepLine_keys (core : RelayCore) (l : SStr) :
    (stepLine core l).foundFiles.map Prod.fst =
      (lineIds l).foldl insAbsent (core.foundFiles.map Prod.fst) := by
  unfold stepLine lineIds
  by_cases h1 : hasPrefixCS "data:".toList (jsTrimStart l) = true
  · rw [if_pos h1, if_pos h1]
    by_cases h2 : jsTrim ((jsTrimStart l).drop 5) = [] ∨
        jsTrim ((jsTrimStart l).drop 5) = "[DONE]".toList
    · rw [if_pos h2, if_pos h2]
      rfl
    · rw [if_neg h2, if_neg h2]
      cases parseJson (jsTrim ((jsTrimStart l).drop 5)) with
      | none => rfl
      | some evt => exact processEvt_keys core evt
  · rw [if_neg h1, if_neg h1]
    rfl

theorem foldl_stepLine_keys (lines : List SStr) : ∀ core : RelayCore,
    (lines.foldl stepLine core).foundFiles.map Prod.fst =
      ((lines.map lineIds).flatten).foldl insAbsent (core.foundFiles.map Prod.fst) := by
  induction lines with
  | nil => intro core; rfl
  | cons l ls ih =>
    intro core
    rw [List.foldl_cons, ih, List.map_cons, List.flatten_cons, List.foldl_append,
      stepLine_keys]

theorem relayRun_keys (chunks : List SStr) :
    (relayRun chunks).core.foundFiles.map Prod.fst = firstSeen (observedIds chunks) := by
  rw [relayRun_flatten]
  show ((splitNl (([] : SStr) ++ chunks.flatten)).dropLast.foldl stepLine
    initRelay.core).foundFiles.map Prod.fst = _
  rw [foldl_stepLine_keys]
  rfl

theorem insAbsent_nodup {α : Type} [DecidableEq α] (acc : List α) (x : α)
    (h : acc.Nodup) : (insAbsent acc x).Nodup := by
  unfold insAbsent
  split
  · exact h
  · next hx => simp [List.nodup_append, h, hx]

theorem foldl_insAbsent_nodup {α : Type} [DecidableEq α] (l : List α) :
    ∀ acc : List α, acc.Nodup → (l.foldl insAbsent acc).Nodup := by
  induction l with
  | nil => intro acc h; exact h
  | cons x xs ih => intro acc h; exact ih _ (insAbsent_nodup acc x h)

theorem insAbsent_toFinset {α : Type} [DecidableEq α] (acc : List α) (x : α) :
    (insAbsent acc x).toFinset = insert x acc.toFinset := by
  unfold insAbsent
  split
  · next hx => exact (Finset.insert_eq_self.mpr (List.mem_toFinset.mpr hx)).symm
  · rw [List.toFinset_append]
    ext a
    simp [or_comm]

theorem foldl_insAbsent_toFinset {α : Type} [DecidableEq α] (l : List α) :
    ∀ acc : List α, (l.foldl insAbsent acc).toFinset = acc.toFinset ∪ l.toFinset := by
  induction l with
  | nil => intro acc; simp
  | cons x xs ih =>
    intro acc
    rw [List.foldl_cons, ih, insAbsent_toFinset]
    simp [Finset.insert_union, Finset.union_insert]

theorem insAbsent_length_le {α : Type} [DecidableEq α] (acc : List α) (x : α) :
    (insAbsent acc x).length ≤ acc.length + 1 := by
  unfold insAbsent
  split
  · omega
  · simp

theorem foldl_insAbsent_length {α : Type} [DecidableEq α] (l : List α) :
    ∀ acc : List α, (l.foldl insAbsent acc).length ≤ acc.length + l.length := by
  induction l with
  | nil => intro acc; simp
  | cons x xs ih =>
    intro acc
    have h1 := ih (insAbsent acc x)
    have h2 := insAbsent_length_le acc x
    simp only [List.foldl_cons, List.length_cons]
    omega

theorem firstSeen_nodup {α : Type} [DecidableEq α] (l : List α) : (firstSeen l).Nodup :=
  foldl_insAbsent_nodup l [] List.nodup_nil

theorem firstSeen_toFinset {α : Type} [DecidableEq α] (l : List α) :
    (firstSeen l).toFinset = l.toFinset := by
  unfold firstSeen
  rw [foldl_insAbsent_toFinset]
  simp

theorem firstSeen_length {α : Type} [DecidableEq α] (l : List α) :
    (firstSeen l).length = l.toFinset.card := by
  rw [← firstSeen_toFinset, List.toFinset_card_of_nodup (firstSeen_nodup l)]

theorem firstSeen_length_le {α : Type} [DecidableEq α] (l : List α) :
    (firstSeen l).length ≤ l.length := by
  have := foldl_insAbsent_length l ([] : List α)
  simpa [firstSeen] using this

theorem resolve004Names_length (lookup : Json → FileLookup) (hints : List (Json × Json)) :
    ∀ (ids : List Json) (names : List SStr),
      resolve004Names lookup hints ids = some names → names.length = ids.length := by
  intro ids
  induction ids with
  | nil =>
    intro names h
    have h2 : (some ([] : List SStr) : Option (List SStr)) = some names := h
    injection h2 with h2
    rw [← h2]
    rfl
  | cons id rest ih =>
    intro names h
    have hb : (resolve004Name lookup hints id).bind
        (fun n => (resolve004Names lookup hints rest).bind
          (fun ns => some (n :: ns))) = some names := h
    cases h1 : resolve004Name lookup hints id with
    | none => rw [h1] at hb; simp at hb
    | some n =>
      rw [h1] at hb
      cases h2 : resolve004Names lookup hints rest with
      | none => rw [h2] at hb; simp at hb
      | some ns =>
        rw [h2] at hb
        simp only [Option.some_bind] at hb
        injection hb with hb
        rw [← hb]
        simp [ih ns h2]

/-- C2 (amended): in the chat.js relay, the `foundFiles` map holds exactly
the distinct file identifiers observed in the stream, in first-seen order
and without duplicates, so the source list of the terminal frame has
length equal to the number of distinct identifiers observed.  In the
part_004 variant the terminal list is additionally deduplicated by
resolved display name, so its length is at most (and can be less than) the
number of distinct identifiers. -/
theorem source_list_distinct_ids (chunks : List SStr) :
    (relayRun chunks).core.foundFiles.map Prod.fst = firstSeen (observedIds chunks) ∧
      ((relayRun chunks).core.foundFiles.map Prod.fst).Nodup ∧
      (relaySources (relayRun chunks)).length = (observedIds chunks).toFinset.card ∧
      (∀ (lookup : Json → FileLookup) (hints : List (Json × Json)) (ids : List Json)
          (srcs : List SStr), resolveDisplayNames lookup hints ids = some srcs →
          srcs.length ≤ ids.length) := by
  refine ⟨relayRun_keys chunks, ?qa, ?qb, ?qc⟩
  · rw [relayRun_keys]
    exact firstSeen_nodup _
  · have h1 : (relaySources (relayRun chunks)).length =
        ((relayRun chunks).core.foundFiles.map Prod.fst).length := by
      simp [relaySources]
    rw [h1, relayRun_keys, firstSeen_length]
  · intro lookup hints ids srcs h
    cases hn : resolve004Names lookup hints ids with
    | none =>
      unfold resolveDisplayNames at h
      rw [hn] at h
      simp at h
    | some names =>
      unfold resolveDisplayNames at h
      rw [hn] at h
      have hb : some (firstSeen names) = some srcs := h
      injection hb with hb
      rw [← hb]
      calc (firstSeen names).length ≤ names.length := firstSeen_length_le names
        _ = ids.length := resolve004Names_length lookup hints ids names hn

/-- Counterexample for C2 as stated: in the cited part_004 variant, two
frames naming distinct identifiers that resolve to the same display name
produce a terminal source list of length 1, not 2: the terminal list is
deduplicated by name, not by identifier. -/
theorem part004_dedup_by_name_cex :
    (relay004Run [("data: \x7b\"results\":[\x7b\"file_id\":\"f1\",\"filename\":\"doc.pdf\"\x7d,\x7b\"file_id\":\"f2\",\"filename\":\"doc.pdf\"\x7d]\x7d\n").toList]).core.fileIds =
        [Json.str ('f' :: '1' :: []), Json.str ('f' :: '2' :: [])] ∧
      relay004EmitClean (fun _ => FileLookup.notOk)
        [("data: \x7b\"results\":[\x7b\"file_id\":\"f1\",\"filename\":\"doc.pdf\"\x7d,\x7b\"file_id\":\"f2\",\"filename\":\"doc.pdf\"\x7d]\x7d\n").toList] =
        ([Frame.doneFrame [] [Json.str ('d' :: 'o' :: 'c' :: [])], Frame.doneSentinel],
          StreamEnd.clean) ∧
      (1 : Nat) ≠ 2 :=
  ⟨rfl, rfl, by decide⟩

/-! ### The anchored `Sources:` regular expression -/

theorem matchesCI_split (pat : SStr) : ∀ (u v : SStr), matchesCI pat (u ++ v) = true →
    matchesCI pat u = true ∨
      (u.length < pat.length ∧ matchesCI (pat.drop u.length) v = true) := by
  induction pat with
  | nil => intro u v _; left; cases u <;> rfl
  | cons p ps ih =>
    intro u v h
    cases u with
    | nil =>
      right
      exact ⟨by simp, h⟩
    | cons c u' =>
      rw [List.cons_append] at h
      simp only [matchesCI, Bool.and_eq_true] at h
      rcases h with ⟨hc, h⟩
      rcases ih u' v h with h1 | ⟨h1, h2⟩
      · left
        simp [matchesCI, hc, h1]
      · right
        refine ⟨by simpa using h1, ?_⟩
        simpa using h2

theorem matchesCI_no_nl_cross (s : SStr) (n : Nat) (hn : n < srcPat.length) :
    matchesCI (srcPat.drop n) ('\n' :: s) = false := by
  have hne : srcPat.drop n ≠ [] := by
    simp only [Ne, List.drop_eq_nil_iff]
    omega
  rcases hq : srcPat.drop n with _ | ⟨q, qs⟩
  · exact absurd hq hne
  · by_contra hmc
    rw [Bool.not_eq_false] at hmc
    simp only [matchesCI, Bool.and_eq_true] at hmc
    have h3 : Char.toLower '\n' = q := of_decide_eq_true hmc.1
    have hq2 : q = '\n' := by
      rw [show Char.toLower '\n' = '\n' from by decide] at h3
      exact h3.symm
    have hmem : q ∈ srcPat := List.mem_of_mem_drop (hq ▸ List.mem_cons_self q qs)
    rw [hq2] at hmem
    exact absurd hmem (by decide)

theorem containsCI_of_suffix : ∀ (p u : SStr), u <:+ p → matchesCI srcPat u = true →
    containsCI srcPat p = true := by
  intro p
  induction p with
  | nil =>
    intro u hu hm
    rw [List.suffix_nil.mp hu] at hm
    exact absurd hm (by decide)
  | cons c p' ih =>
    intro u hu hm
    rcases List.suffix_cons_iff.mp hu with h1 | h1
    · subst h1
      simp [containsCI, hm]
    · simp [containsCI, ih u h1 hm]

theorem dropWhile_append_all (pr : Char → Bool) : ∀ (p s : SStr), p.all pr →
    (p ++ s).dropWhile pr = s.dropWhile pr := by
  intro p
  induction p with
  | nil => intro s _; rfl
  | cons c p' ih =>
    intro s hall
    simp only [List.all_cons, Bool.and_eq_true] at hall
    rw [List.cons_append, List.dropWhile_cons, if_pos hall.1]
    exact ih s hall.2

theorem dropWhile_append_ne (pr : Char → Bool) : ∀ (p s : SStr), p.dropWhile pr ≠ [] →
    (p ++ s).dropWhile pr = p.dropWhile pr ++ s := by
  intro p
  induction p with
  | nil => intro s h; exact absurd rfl h
  | cons c p' ih =>
    intro s h
    rw [List.dropWhile_cons] at h
    rw [List.cons_append, List.dropWhile_cons, List.dropWhile_cons]
    by_cases hc : pr c = true
    · rw [if_pos hc] at h
      rw [if_pos hc, if_pos hc]
      exact ih s h
    · rw [if_neg hc, if_neg hc]
      rfl

theorem matchBody_congr (a b : SStr) (h : a.dropWhile isJsWs = b.dropWhile isJsWs) :
    matchBody a = matchBody b := by
  unfold matchBody
  rw [h]

theorem matchBody_before_anchor (p S2 : SStr) (hp : containsCI srcPat p = false) :
    matchBody (p ++ '\n' :: S2) =
      if p.all isJsWs then matchBody ('\n' :: S2) else none := by
  by_cases hall : p.all isJsWs
  · rw [if_pos hall]
    exact matchBody_congr _ _ (by rw [dropWhile_append_all isJsWs p _ hall])
  · rw [if_neg hall]
    have hsp : p.dropWhile isJsWs ≠ [] := by
      intro hnil
      exact hall (List.all_eq_true.mpr (List.dropWhile_eq_nil_iff.mp hnil))
    unfold matchBody
    rw [dropWhile_append_ne isJsWs p _ hsp]
    rw [if_neg ?hm]
    case hm =>
      intro hmc
      rcases matchesCI_split srcPat (p.dropWhile isJsWs) ('\n' :: S2) hmc with h1 | ⟨h1, h2⟩
      · exact absurd (containsCI_of_suffix p _ (List.dropWhile_suffix isJsWs) h1)
          (by simp [hp])
      · exact absurd h2 (by simp [matchesCI_no_nl_cross S2 _ h1])

theorem scanAux_before_anchor (S2 cap : SStr) (hS : matchBody ('\n' :: S2) = some cap) :
    ∀ p : SStr, containsCI srcPat p = false → scanAux (p ++ '\n' :: S2) = some cap := by
  intro p
  induction p with
  | nil =>
    intro _
    have hS2 : matchBody S2 = some cap := by
      rw [← hS]
      exact (matchBody_congr _ _ (by rw [List.dropWhile_cons]; rfl)).symm
    simp [scanAux, hS2]
  | cons c p' ih =>
    intro hp
    have hp' : containsCI srcPat p' = false := by
      have := congrArg (fun x => x) hp
      simp only [containsCI, Bool.or_eq_false_iff] at hp
      exact hp.2
    rw [List.cons_append]
    by_cases hc : c = '\n'
    · subst hc
      show (match matchBody (p' ++ '\n' :: S2) with
            | some g => some g
            | none => scanAux (p' ++ '\n' :: S2)) = some cap
      rw [matchBody_before_anchor p' S2 hp']
      by_cases hall : p'.all isJsWs
      · rw [if_pos hall, hS]
      · rw [if_neg hall]
        exact ih hp'
    · show scanAux (c :: (p' ++ '\n' :: S2)) = some cap
      unfold scanAux
      rw [if_neg hc]
      exact ih hp'

theorem execSourcesRe_before_anchor (S2 cap : SStr) (hS : matchBody ('\n' :: S2) = some cap)
    (p : SStr) (hp : containsCI srcPat p = false) :
    execSourcesRe (p ++ '\n' :: S2) = some cap := by
  unfold execSourcesRe
  rw [matchBody_before_anchor p S2 hp]
  by_cases hall : p.all isJsWs
  · rw [if_pos hall, hS]
  · rw [if_neg hall]
    exact scanAux_before_anchor S2 cap hS p hp

theorem splitNl_headI (x : SStr) :
    (splitNl x).headI = x.takeWhile (fun c => !(c = '\n')) := by
  induction x with
  | nil => rfl
  | cons c cs ih =>
    by_cases hc : c = '\n'
    · subst hc
      rw [splitNl_cons_nl]
      simp [List.takeWhile_cons]
    · rw [splitNl_cons_other c hc]
      simp [List.takeWhile_cons, hc, ih]

theorem matchesCI_takeWhile_nl : ∀ (pat s : SStr), ('\n' : Char) ∉ pat →
    matchesCI pat s = true → matchesCI pat (s.takeWhile (fun c => !(c = '\n'))) = true := by
  intro pat
  induction pat with
  | nil =>
    intro s _ _
    cases hq : (s.takeWhile (fun c => !(c = '\n'))) <;> rfl
  | cons p ps ih =>
    intro s hnl hm
    cases s with
    | nil => exact absurd hm (by simp [matchesCI])
    | cons c s' =>
      simp only [matchesCI, Bool.and_eq_true] at hm
      have hcp : c.toLower = p := of_decide_eq_true hm.1
      have hcnl : ¬ c = '\n' := by
        intro hc
        apply hnl
        rw [← hcp, hc]
        exact List.mem_cons_self _ _
      rw [List.takeWhile_cons, if_pos (by simp [hcnl])]
      simp only [matchesCI, Bool.and_eq_true]
      exact ⟨hm.1, ih s' (fun hmem => hnl (List.mem_cons_of_mem p hmem)) hm.2⟩

theorem sources_line_of_matchBody : ∀ t : SStr,
    matchesCI srcPat (t.dropWhile isJsWs) = true →
    ∃ l ∈ splitNl t, sourcesLine l = true := by
  intro t
  induction t with
  | nil => intro h; exact absurd h (by decide)
  | cons c t' ih =>
    intro h
    by_cases hws : isJsWs c = true
    · rw [List.dropWhile_cons, if_pos hws] at h
      rcases ih h with ⟨l, hl, hgood⟩
      by_cases hc : c = '\n'
      · subst hc
        rw [splitNl_cons_nl]
        exact ⟨l, List.mem_cons_of_mem _ hl, hgood⟩
      · rw [splitNl_cons_other c hc]
        rcases hr : splitNl t' with _ | ⟨h0, t0⟩
        · exact absurd hr (splitNl_ne_nil t')
        · rw [hr] at hl
          show ∃ x ∈ (c :: h0) :: t0, sourcesLine x = true
          rcases List.mem_cons.mp hl with h1 | h1
          · subst h1
            refine ⟨c :: l, List.mem_cons_self _ _, ?_⟩
            unfold sourcesLine at hgood ⊢
            rw [List.dropWhile_cons, if_pos hws]
            exact hgood
          · exact ⟨l, List.mem_cons_of_mem _ h1, hgood⟩
    · rw [List.dropWhile_cons, if_neg hws] at h
      refine ⟨(splitNl (c :: t')).headI, ?_, ?_⟩
      · rcases hr : splitNl (c :: t') with _ | ⟨h0, t0⟩
        · exact absurd hr (splitNl_ne_nil _)
        · exact List.mem_cons_self _ _
      · unfold sourcesLine
        rw [splitNl_headI]
        have hcnl : ¬ c = '\n' := by
          intro hc
          rw [hc] at hws
          exact hws (by decide)
        have h2 := matchesCI_takeWhile_nl srcPat (c :: t') (by decide) h
        rw [List.takeWhile_cons, if_pos (by simp [hcnl])] at h2
        rw [List.takeWhile_cons, if_pos (by simp [hcnl])]
        rw [List.dropWhile_cons, if_neg hws]
        exact h2

theorem sources_line_of_scanAux : ∀ (t g : SStr), scanAux t = some g →
    ∃ l ∈ (splitNl t).tail, sourcesLine l = true := by
  intro t
  induction t with
  | nil => intro g h; exact absurd h (by simp [scanAux])
  | cons c t' ih =>
    intro g h
    by_cases hc : c = '\n'
    · subst hc
      rw [splitNl_cons_nl]
      show ∃ l ∈ splitNl t', sourcesLine l = true
      have h2 : (match matchBody t' with
          | some g0 => some g0
          | none => scanAux t') = some g := by
        simpa [scanAux] using h
      cases hm : matchBody t' with
      | some g0 =>
        have hg : matchesCI srcPat (t'.dropWhile isJsWs) = true := by
          by_contra hng
          rw [Bool.not_eq_true] at hng
          unfold matchBody at hm
          rw [if_neg (by simp [hng])] at hm
          exact Option.noConfusion hm
        exact sources_line_of_matchBody t' hg
      | none =>
        rw [hm] at h2
        rcases ih g h2 with ⟨l, hl, hgood⟩
        exact ⟨l, List.mem_of_mem_tail hl, hgood⟩
    · rw [splitNl_cons_other c hc]
      show ∃ l ∈ (splitNl t').tail, sourcesLine l = true
      apply ih g
      simpa [scanAux, hc] using h

theorem extractSources_no_sources_line (t : SStr)
    (h : ∀ l ∈ splitNl t, sourcesLine l = false) :
    extractSourcesFromAnswer t = [] := by
  have hexec : execSourcesRe t = none := by
    unfold execSourcesRe
    cases hm : matchBody t with
    | some g =>
      exfalso
      have hg : matchesCI srcPat (t.dropWhile isJsWs) = true := by
        by_contra hng
        rw [Bool.not_eq_true] at hng
        unfold matchBody at hm
        rw [if_neg (by simp [hng])] at hm
        exact Option.noConfusion hm
      rcases sources_line_of_matchBody t hg with ⟨l, hl, hgood⟩
      rw [h l hl] at hgood
      exact Bool.noConfusion hgood
    | none =>
      cases hs : scanAux t with
      | some g =>
        exfalso
        rcases sources_line_of_scanAux t g hs with ⟨l, hl, hgood⟩
        rw [h l (List.mem_of_mem_tail hl)] at hgood
        exact Bool.noConfusion hgood
      | none => rfl
  unfold extractSourcesFromAnswer
  rw [hexec]

/-- C3 (amended): the text-driven extractor is anchored at the start of a
line: given text ending in `"\nSources: a.pdf, b.pdf"` whose preceding
text contains no other case-insensitive occurrence of `Sources:`, it
returns `["a.pdf", "b.pdf"]`; given text that is exactly
`"Sources: a.pdf; b.pdf;"`, or ends in `"\nSources: a.pdf; b.pdf;"` under
the same proviso, it returns `["a.pdf", "b.pdf"]` (trailing separators and
surrounding whitespace ignored); and given any text with no line whose
whitespace-trimmed start is `Sources:` (case-insensitively), it returns
the empty list. -/
theorem extractSources_vectors :
    (∀ p : SStr, containsCI srcPat p = false →
      extractSourcesFromAnswer (p ++ "\nSources: a.pdf, b.pdf".toList) =
        ["a.pdf".toList, "b.pdf".toList]) ∧
      (extractSourcesFromAnswer "Sources: a.pdf; b.pdf;".toList =
          ["a.pdf".toList, "b.pdf".toList] ∧
        ∀ p : SStr, containsCI srcPat p = false →
          extractSourcesFromAnswer (p ++ "\nSources: a.pdf; b.pdf;".toList) =
            ["a.pdf".toList, "b.pdf".toList]) ∧
      (∀ t : SStr, (∀ l ∈ splitNl t, sourcesLine l = false) →
        extractSourcesFromAnswer t = []) := by
  refine ⟨?_, ⟨by rfl, ?_⟩, extractSources_no_sources_line⟩
  · intro p hp
    have hcap := execSourcesRe_before_anchor ("Sources: a.pdf, b.pdf".toList)
      ("a.pdf, b.pdf".toList) (by rfl) p hp
    unfold extractSourcesFromAnswer
    rw [show execSourcesRe (p ++ "\nSources: a.pdf, b.pdf".toList) =
      some ("a.pdf, b.pdf".toList) from hcap]
    rfl
  · intro p hp
    have hcap := execSourcesRe_before_anchor ("Sources: a.pdf; b.pdf;".toList)
      ("a.pdf; b.pdf;".toList) (by rfl) p hp
    unfold extractSourcesFromAnswer
    rw [show execSourcesRe (p ++ "\nSources: a.pdf; b.pdf;".toList) =
      some ("a.pdf; b.pdf;".toList) from hcap]
    rfl

/-- Witness for C3: the vectors applied at concrete preceding text and at
a concrete sources-free text. -/
theorem extractSources_vectors_witness :
    extractSourcesFromAnswer ("The answer is 42.".toList ++ "\nSources: a.pdf, b.pdf".toList) =
        ["a.pdf".toList, "b.pdf".toList] ∧
      extractSourcesFromAnswer ("See docs.".toList ++ "\nSources: a.pdf; b.pdf;".toList) =
        ["a.pdf".toList, "b.pdf".toList] ∧
      extractSourcesFromAnswer "no citations in this answer".toList = [] := by
  refine ⟨(extractSources_vectors).1 _ (by decide), ?_, ?_⟩
  · exact (extractSources_vectors).2.1.2 _ (by decide)
  · exact (extractSources_vectors).2.2 _ (by decide)

/-- Counterexample for C3 as stated: text ending in
`"...Sources: a.pdf; b.pdf;"` where `Sources:` is neither at the start of
the text nor preceded by a newline is not matched by the anchored regex —
the extractor returns the empty list, not `["a.pdf", "b.pdf"]`. -/
theorem extractSources_midline_cex :
    extractSourcesFromAnswer "x Sources: a.pdf; b.pdf;".toList = [] ∧
      ([] : List SStr) ≠ ["a.pdf".toList, "b.pdf".toList] :=
  ⟨rfl, by decide⟩
